import Mathlib

/-!
Verification of the nlp-insights FHIR enrichment core of the health-patterns
repository.  The Python sources under
`services/nlp-insights/src/main/py/text_analytics/` are shallowly embedded:
mutable FHIR objects become immutable values passed and returned explicitly,
Python exceptions become an `Except PyErr` result, and Python `None` becomes
`Option`.  Machine floats only ever hold small decimal literals in the code
under study, so decimal amounts are represented as rationals.
-/

namespace HealthPatterns

/-- Python exceptions that the embedded code can raise. -/
inductive PyErr where
  | attributeError
  | valueError
  | indexError
  | typeError
deriving DecidableEq, Repr

/-- Python truthiness of an optional string (`None` and `""` are falsy). -/
def truthyStr : Option String → Bool
  | none => false
  | some s => s ≠ ""

/-- Python truthiness of an optional list (`None` and `[]` are falsy). -/
def truthyList {α : Type} : Option (List α) → Bool
  | none => false
  | some l => !l.isEmpty

/-- Splits a character list at every occurrence of the separator character;
models Python str.split with a one-character separator (adjacent separators
yield empty fields, the empty string yields one empty field). -/
def splitOnChar (c : Char) : List Char → List (List Char)
  | [] => [[]]
  | x :: rest =>
    let r := splitOnChar c rest
    if x = c then [] :: r
    else
      match r with
      | [] => [[x]]
      | h :: t => (x :: h) :: t

/-- Models the Python expression `s.split(" ")`. -/
def pySplitSpace (s : String) : List String :=
  (splitOnChar ' ' s.toList).map (fun l => String.mk l)

/-- Models the Python expression `s.split(",")`. -/
def pySplitComma (s : String) : List String :=
  (splitOnChar ',' s.toList).map (fun l => String.mk l)

/-- Models the Python expression `s.replace(",", "")`: drops every comma. -/
def pyStripCommas (s : String) : String :=
  String.mk (s.toList.filter (fun c => c ≠ ','))

/-- Models the Python expression `" " in s`. -/
def pyContainsSpace (s : String) : Bool :=
  s.toList.contains ' '

/-!
FHIR data model (from the fhir.resources package, restricted to the fields the
embedded code reads or writes).  `Ext` is `fhir.resources.extension.Extension`:
a url, at most one value (the code uses valueString / valueInteger /
valueDecimal / valueIdentifier / valueReference / valueCodeableConcept), and an
optional list of nested extensions.  `Cdg` is `Coding`, `CC` is
`CodeableConcept`.  Unset FHIR fields are `Option.none`.
-/

mutual

inductive Ext where
  | mk (url : String) (value : ExtVal) (sub : Option (List Ext))

inductive ExtVal where
  | noneV
  | vString (s : String)
  | vInteger (n : Int)
  | vDecimal (q : Option ℚ)
  | vIdentifier (system value : Option String)
  | vReference (ref : Option String)
  | vCC (cc : CC)

inductive CC where
  | mk (text : Option String) (coding : Option (List Cdg))

inductive Cdg where
  | mk (system code display : Option String) (ext : Option (List Ext))

end

/-- Url of an extension element. -/
def Ext.url : Ext → String
  | .mk u _ _ => u

/-- Value of an extension element. -/
def Ext.value : Ext → ExtVal
  | .mk _ v _ => v

/-- Nested extension list of an extension element. -/
def Ext.sub : Ext → Option (List Ext)
  | .mk _ _ s => s

/-- Text field of a codeable concept. -/
def CC.text : CC → Option String
  | .mk t _ => t

/-- Coding list of a codeable concept. -/
def CC.coding : CC → Option (List Cdg)
  | .mk _ c => c

/-- System of a coding. -/
def Cdg.system : Cdg → Option String
  | .mk s _ _ _ => s

/-- Code of a coding. -/
def Cdg.code : Cdg → Option String
  | .mk _ c _ _ => c

/-- Display text of a coding. -/
def Cdg.display : Cdg → Option String
  | .mk _ _ d _ => d

/-- Extension list of a coding. -/
def Cdg.ext : Cdg → Option (List Ext)
  | .mk _ _ _ e => e

/-!
Constants from `text_analytics/.../insights/insight_constants.py`.
-/

def INSIGHT_CATEGORY_URL : String := "http://ibm.com/fhir/cdm/StructureDefinition/category"

def INSIGHT_URL : String := "http://ibm.com/fhir/cdm/StructureDefinition/insight"

def INSIGHT_BASED_ON_URL : String := "http://ibm.com/fhir/cdm/StructureDefinition/reference"

def INSIGHT_DETAIL_URL : String := "http://ibm.com/fhir/cdm/StructureDefinition/insight-detail"

def INSIGHT_ID_URL : String := "http://ibm.com/fhir/cdm/StructureDefinition/insight-id"

def INSIGHT_ACD_OUTPUT_URL : String := "http://ibm.com/fhir/cdm/StructureDefinition/evaluated-output"

def INSIGHT_REFERENCE_PATH_URL : String := "http://ibm.com/fhir/cdm/StructureDefinition/reference-path"

def INSIGHT_RESULT_URL : String := "http://ibm.com/fhir/cdm/StructureDefinition/insight-result"

def INSIGHT_SPAN_URL : String := "http://ibm.com/fhir/cdm/StructureDefinition/span"

def INSIGHT_SPAN_OFFSET_BEGIN_URL : String := "http://ibm.com/fhir/cdm/StructureDefinition/offset-begin"

def INSIGHT_SPAN_OFFSET_END_URL : String := "http://ibm.com/fhir/cdm/StructureDefinition/offset-end"

def INSIGHT_SPAN_COVERED_TEXT_URL : String := "http://ibm.com/fhir/cdm/StructureDefinition/covered-text"

def INSIGHT_CONFIDENCE_URL : String := "http://ibm.com/fhir/cdm/StructureDefinition/insight-confidence"

def INSIGHT_CONFIDENCE_SCORE_URL : String := "http://ibm.com/fhir/cdm/StructureDefinition/score"

def INSIGHT_CONFIDENCE_NAME_URL : String := "http://ibm.com/fhir/cdm/StructureDefinition/description"

def SNOMED_URL : String := "http://snomed.info/sct"

def UMLS_URL : String := "http://terminology.hl7.org/CodeSystem/umls"

def LOINC_URL : String := "http://loinc.org"

def MESH_URL : String := "http://www.nlm.nih.gov/mesh/meshhome.html"

def NCI_URL : String := "http://ncithesaurus.nci.nih.gov/ncitbrowser/"

def ICD9_URL : String := "http://terminology.hl7.org/CodeSystem/icd9"

def ICD10_URL : String := "https://terminology.hl7.org/CodeSystem/icd10"

def RXNORM_URL : String := "http://www.nlm.nih.gov/research/umls/rxnorm"

def TIMING_URL : String := "http://hl7.org/fhir/ValueSet/timing-abbreviation"

def CLASSIFICATION_DERIVED_CODE : String := "natural-language-processing"

def CLASSIFICATION_DERIVED_DISPLAY : String := "NLP"

def CLASSIFICATION_DERIVED_SYSTEM : String := "http://ibm.com/fhir/cdm/CodeSystem/insight-category-code-system"

def CONFIDENCE_SCORE_EXPLICIT : String := "Explicit Score"

def CONFIDENCE_SCORE_PATIENT_REPORTED : String := "Patient Reported Score"

def CONFIDENCE_SCORE_DISCUSSED : String := "Discussed Score"

def CONFIDENCE_SCORE_SUSPECTED : String := "Suspected Score"

def CONFIDENCE_SCORE_FAMILY_HISTORY : String := "Family History Score"

def CONFIDENCE_SCORE_MEDICATION_TAKEN : String := "Medication Taken Score"

def CONFIDENCE_SCORE_MEDICATION_CONSIDERING : String := "Medication Considering Score"

def CONFIDENCE_SCORE_MEDICATION_DISCUSSED : String := "Medication Discussed Score"

def CONFIDENCE_SCORE_MEDICATION_MEASUREMENT : String := "Medication Lab Measurement Score"

/-- List of NLP annotation-type names from `enrichment_constants.py`. -/
def ANNOTATION_TYPE_ALLERGY : List String := ["CDP-Allergy", "MedicationAllergy", "Diagnosis"]

/-- Annotation-type names relevant to conditions (`enrichment_constants.py`). -/
def ANNOTATION_TYPE_CONDITION : List String := ["CDP-Condition"]

/-- Annotation-type names relevant to immunizations (`enrichment_constants.py`). -/
def ANNOTATION_TYPE_IMMUNIZATION : List String := ["CDP-Immunization"]

/-- Annotation-type names relevant to medications (`enrichment_constants.py`). -/
def ANNOTATION_TYPE_MEDICATION : List String := ["CDP-Medication"]

/-!
Coding merge engine, from `src/main/py/text_analytics/fhir_object_utils.py`.
-/

/-- Embeds `find_codings`: codings of the concept whose system and code equal
the given pair (an unset coding list counts as empty). -/
def find_codings (codeable_concept : CC) (system code : String) : List Cdg :=
  match codeable_concept.coding with
  | none => []
  | some l => l.filter (fun c => c.system == some system && c.code == some code)

/-- Embeds the private helper that returns the first extension of an element
with the given url, or `none`.  The element argument is the element's
extension list. -/
def getExtensionWithUrl (elementExt : Option (List Ext)) (extension_url : String) : Option Ext :=
  match elementExt with
  | none => none
  | some l => if l.isEmpty then none else l.find? (fun e => e.url == extension_url)

/-- Embeds `create_derived_by_nlp_extension` applied through `create_coding`:
the category extension tagging an element as NLP derived.  Defined after
`create_coding` in the source; inlined here because `create_coding` with
`derived_by_nlp=True` and this function are mutually dependent only in this
one fixed shape (the inner classification coding is built with
`derived_by_nlp=False`, so the recursion bottoms out immediately). -/
def create_derived_by_nlp_extension : Ext :=
  Ext.mk INSIGHT_CATEGORY_URL
    (ExtVal.vCC (CC.mk (some CLASSIFICATION_DERIVED_DISPLAY)
      (some [Cdg.mk (some CLASSIFICATION_DERIVED_SYSTEM)
                    (some CLASSIFICATION_DERIVED_CODE)
                    (some CLASSIFICATION_DERIVED_DISPLAY) none])))
    none

/-- Embeds `create_coding`: builds a coding; the display is only set when it
is truthy, and a derived-by-NLP category extension is attached when
requested. -/
def create_coding (system code : String) (display : Option String) (derived_by_nlp : Bool) : Cdg :=
  Cdg.mk (some system) (some code)
    (if truthyStr display then display else none)
    (if derived_by_nlp then some [create_derived_by_nlp_extension] else none)

/-- Embeds `get_derived_by_nlp_extension`.  The source looks up the category
extension and then dereferences `extension.valueCodeableConcept.coding`
without checking the lookup for `None`; when the element has no category
extension (or the found extension has no codeable-concept value) Python
raises `AttributeError`. -/
def get_derived_by_nlp_extension (elementExt : Option (List Ext)) : Except PyErr (Option Ext) :=
  match getExtensionWithUrl elementExt INSIGHT_CATEGORY_URL with
  | none => .error .attributeError
  | some extension =>
    match extension.value with
    | .vCC cc =>
      match cc.coding with
      | none => .ok none
      | some codings =>
        if !codings.isEmpty &&
           codings.any (fun coding =>
             truthyStr coding.system && truthyStr coding.code &&
             coding.system == some CLASSIFICATION_DERIVED_SYSTEM &&
             coding.code == some CLASSIFICATION_DERIVED_CODE)
        then .ok (some extension)
        else .ok none
    | _ => .error .attributeError

/-- Embeds `append_coding`: appends a plain coding unless a coding with the
same system and code already exists (the coding list is materialised when
unset). -/
def append_coding (codeable_concept : CC) (system code : String) (display : Option String) : CC :=
  let codings := codeable_concept.coding.getD []
  let cc := CC.mk codeable_concept.text (some codings)
  if (find_codings cc system code).isEmpty then
    CC.mk cc.text (some (codings ++ [create_coding system code display false]))
  else
    cc

/-- Lazily evaluates `any(get_derived_by_nlp_extension(coding) for coding in
existing_codings)`: Python stops at the first truthy result and propagates the
first exception. -/
def anyDerivedByNlp : List Cdg → Except PyErr Bool
  | [] => .ok false
  | c :: rest =>
    match get_derived_by_nlp_extension c.ext with
    | .error e => .error e
    | .ok (some _) => .ok true
    | .ok none => anyDerivedByNlp rest

/-- Embeds `append_derived_by_nlp_coding`: when a matching coding exists the
source asks each match for its derived-by-NLP extension, which raises
`AttributeError` on any matching coding that carries no category extension;
otherwise a new derived-tagged coding is appended. -/
def append_derived_by_nlp_coding (codeable_concept : CC) (system code : String) (display : Option String) : Except PyErr CC :=
  let codings := codeable_concept.coding.getD []
  let cc := CC.mk codeable_concept.text (some codings)
  let existing_codings := find_codings cc system code
  if existing_codings.isEmpty then
    .ok (CC.mk cc.text (some (codings ++ [create_coding system code display true])))
  else
    match anyDerivedByNlp existing_codings with
    | .error e => .error e
    | .ok true => .ok cc
    | .ok false => .ok (CC.mk cc.text (some (codings ++ [create_coding system code display true])))

/-!
Insight extension builders, from `src/main/py/text_analytics/fhir_object_utils.py`.
-/

/-- Embeds `create_confidence_extension`: a confidence extension holding a
name extension followed by a score extension. -/
def create_confidence_extension (name : String) (value : Option ℚ) : Ext :=
  Ext.mk INSIGHT_CONFIDENCE_URL ExtVal.noneV
    (some [Ext.mk INSIGHT_CONFIDENCE_NAME_URL (ExtVal.vString name) none,
           Ext.mk INSIGHT_CONFIDENCE_SCORE_URL (ExtVal.vDecimal value) none])

/-- Character-offset text span (`text_analytics/span.py`). -/
structure Span where
  spanBegin : Int
  spanEnd : Int
  covered_text : String

/-- Embeds `create_insight_span_extension`: covered text first, then begin and
end offsets. -/
def create_insight_span_extension (span : Span) : Ext :=
  Ext.mk INSIGHT_SPAN_URL ExtVal.noneV
    (some [Ext.mk INSIGHT_SPAN_COVERED_TEXT_URL (ExtVal.vString span.covered_text) none,
           Ext.mk INSIGHT_SPAN_OFFSET_BEGIN_URL (ExtVal.vInteger span.spanBegin) none,
           Ext.mk INSIGHT_SPAN_OFFSET_END_URL (ExtVal.vInteger span.spanEnd) none])

/-- Embeds `create_insight_id_extension`: identifier extension for one
insight. -/
def create_insight_id_extension (insight_id_value insight_system : String) : Ext :=
  Ext.mk INSIGHT_ID_URL (ExtVal.vIdentifier (some insight_system) (some insight_id_value)) none

/-- Embeds `create_reference_path_extension`. -/
def create_reference_path_extension (path : String) : Ext :=
  Ext.mk INSIGHT_REFERENCE_PATH_URL (ExtVal.vString path) none

/-- Embeds `create_reference_to_resource_extension`: the reference string is
`resource_type/id` when `resource.id` is truthy, otherwise
`resource_type/_unknown_`.  The first two arguments are the fields the source
reads from the resource. -/
def create_reference_to_resource_extension (resource_type : String) (resource_id : Option String) : Ext :=
  let reference_id := if truthyStr resource_id then resource_id.getD "" else "_unknown_"
  Ext.mk INSIGHT_BASED_ON_URL (ExtVal.vReference (some (resource_type ++ "/" ++ reference_id))) none

/-- Embeds `create_derived_from_unstructured_insight_detail_extension`:
nlp extensions (when given) first, then the reference to the source resource,
then the insight-result node wrapping the span node (with any confidences
appended inside the span node). -/
def create_derived_from_unstructured_insight_detail_extension
    (source_type : String) (source_id : Option String) (span : Span)
    (confidences : Option (List Ext)) (nlp_extensions : Option (List Ext)) : Ext :=
  let insight_span_ext := create_insight_span_extension span
  let insight_span_ext :=
    if truthyList confidences then
      Ext.mk insight_span_ext.url insight_span_ext.value
        (some (insight_span_ext.sub.getD [] ++ confidences.getD []))
    else insight_span_ext
  let insight_results := Ext.mk INSIGHT_RESULT_URL ExtVal.noneV (some [insight_span_ext])
  let report_reference_ext := create_reference_to_resource_extension source_type source_id
  Ext.mk INSIGHT_DETAIL_URL ExtVal.noneV
    (some ((if truthyList nlp_extensions then nlp_extensions.getD [] else []) ++
           [report_reference_ext, insight_results]))

/-- Resource metadata (`fhir.resources.meta.Meta`, extension list only). -/
structure MetaR where
  ext : Option (List Ext)

/-- Embeds `add_insight_to_meta` on a resource's meta: wraps the id and detail
extension into one insight extension and appends it to the meta extension
list, creating meta and the list when absent.  Returns the updated meta. -/
def add_insight_to_meta_ext (meta : Option MetaR) (insight_id insight_detail : Ext) : Option MetaR :=
  let insight_extension := Ext.mk INSIGHT_URL ExtVal.noneV (some [insight_id, insight_detail])
  let m := meta.getD ⟨none⟩
  some ⟨some (m.ext.getD [] ++ [insight_extension])⟩

/-- Embeds `append_derived_by_nlp_extension` (resource level): appends the
classification extension to the resource's extension list, creating the list
when absent.  Takes and returns the resource-level extension list. -/
def append_derived_by_nlp_extension_list (resourceExt : Option (List Ext)) : Option (List Ext) :=
  match resourceExt with
  | none => some [create_derived_by_nlp_extension]
  | some l => some (l ++ [create_derived_by_nlp_extension])

/-- One bundle entry: resource payload, HTTP method, url (`BundleEntryDfn`). -/
structure BundleEntryDfn (ρ : Type) where
  resource : ρ
  method : String
  url : String

/-- Bundle of type transaction (`create_transaction_bundle`). -/
structure Bundle (ρ : Type) where
  type : String
  entry : List (BundleEntryDfn ρ)

/-- Embeds `create_transaction_bundle`: wraps each (resource, method, url)
triple into a bundle entry, in order. -/
def create_transaction_bundle {ρ : Type} (resource_action_list : List (BundleEntryDfn ρ)) : Bundle ρ :=
  { type := "transaction", entry := resource_action_list }

/-!
ACD input model (the fields of the ibm_whcs_sdk annotation container that the
embedded code reads).  `AcdAttr` is an AttributeValueAnnotation: the code
reads `name`, `concept.uid` (the referenced source identifier), the span
fields and `insight_model_data`.  `AcdConcept` is a Concept.
-/

/-- Per-dimension diagnosis usage scores (`insight_model_data.diagnosis.usage`). -/
structure DiagnosisUsage where
  explicit_score : Option ℚ
  patient_reported_score : Option ℚ
  discussed_score : Option ℚ

/-- Diagnosis part of the insight model data. -/
structure DiagnosisModel where
  usage : Option DiagnosisUsage
  family_history_score : Option ℚ
  suspected_score : Option ℚ

/-- Per-dimension medication usage scores (`insight_model_data.medication.usage`). -/
structure MedicationUsage where
  taken_score : Option ℚ
  considering_score : Option ℚ
  discussed_score : Option ℚ
  lab_measurement_score : Option ℚ

/-- Medication part of the insight model data. -/
structure MedicationModel where
  usage : Option MedicationUsage

/-- InsightModelData: optional diagnosis and medication score groups; an
unset group makes the chained attribute access raise AttributeError, which
the confidence builders catch and skip. -/
structure InsightModelData where
  diagnosis : Option DiagnosisModel
  medication : Option MedicationModel

/-- AttributeValueAnnotation fields read by the embedded code. -/
structure AcdAttr where
  name : String
  conceptUid : Nat
  spanBegin : Int
  spanEnd : Int
  covered_text : String
  insight_model_data : Option InsightModelData

/-- Concept fields read by the embedded code. -/
structure AcdConcept where
  uid : Nat
  cui : Option String
  preferred_name : Option String
  snomed_concept_id : Option String
  nci_code : Option String
  loinc_id : Option String
  mesh_id : Option String
  icd9_code : Option String
  icd10_code : Option String
  rx_norm_id : Option String

/-- Drug dictionary entry (`annotation.drug[0].get("name1")[0]`): an untyped
dict in the source; the embedded code reads the keys cui, drugSurfaceForm and
rxNormID.  The empty dict is all-`none`. -/
structure DrugInfo where
  cui : Option String
  drugSurfaceForm : Option String
  rxNormID : Option String

/-- Empty drug dictionary, substituted when the drug lookup fails. -/
def DrugInfo.empty : DrugInfo := ⟨none, none, none⟩

/-- One element of `annotation.drug`: a dict whose name1 key holds a list of
drug dictionaries. -/
structure DrugEntry where
  name1 : Option (List DrugInfo)

/-- One element of `annotation.administration`: a dict with dosage and
frequency strings. -/
structure AdminEntry where
  dosageValue : Option String
  frequencyValue : Option String

/-- MedicationAnnotation fields read by the embedded code.  `administration`
models the dynamically-present attribute: `none` means `hasattr` is false. -/
structure MedAnnot where
  uid : Nat
  cui : Option String
  drug : Option (List DrugEntry)
  administration : Option (List AdminEntry)

/-- Annotation container (`acd.ContainerAnnotation` fields the code reads). -/
structure AcdContainer where
  attribute_values : Option (List AcdAttr)
  concepts : Option (List AcdConcept)
  medication_ind : Option (List MedAnnot)

/-- Embeds `filter_attribute_values` (`utils/acd_utils.py`): attributes whose
name is in the allowed list, in order. -/
def filter_attribute_values (attribute_values : List AcdAttr) (values : List String) : List AcdAttr :=
  attribute_values.filter (fun attr => values.contains attr.name)

/-- Embeds `_get_concept_for_attribute` (`create_condition.py`): first concept
whose uid equals the uid referenced by the attribute, else `none`. -/
def get_concept_for_attribute (attr : AcdAttr) (concepts : List AcdConcept) : Option AcdConcept :=
  concepts.find? (fun concept => concept.uid == attr.conceptUid)

/-- Embeds `_get_annotation_for_attribute` (`create_medication.py`): first
medication annotation whose uid equals the uid referenced by the attribute,
else `none`. -/
def get_annotation_for_attribute (attr : AcdAttr) (acd_annotations : List MedAnnot) : Option MedAnnot :=
  acd_annotations.find? (fun a => a.uid == attr.conceptUid)

/-!
NLP configuration (`src/main/py/text_analytics/nlp_config.py`).  The
`get_nlp_output_loc` callable is constant for both shipped configurations
(a fixed dummy uri for ACD, `None` for QuickUMLS), so it is embedded as the
optional location it returns.
-/

/-- Modelled from the spec: `fhir_object_utils.create_nlp_output_extension`
is referenced by `NlpConfig.create_nlp_output_extension` but its definition
is not in the source tree; per the spec (sections 3 and 6) an insight carries
"an opaque pointer/URI to the full NLP evaluation output" under the fixed
evaluated-output URI. -/
def create_nlp_output_extension (nlp_output_url : String) : Ext :=
  Ext.mk INSIGHT_ACD_OUTPUT_URL (ExtVal.vReference (some nlp_output_url)) none

/-- NLP configuration settings (`NlpConfig` named tuple). -/
structure NlpConfig where
  nlp_system : String
  nlp_output_loc : Option String
  insight_id_start : Nat

/-- Embeds `NlpConfig.create_nlp_output_extension`: the evaluated-output
extension when the configuration supplies a truthy location, else `none`. -/
def NlpConfig.create_nlp_output_extension (cfg : NlpConfig) : Option Ext :=
  if truthyStr cfg.nlp_output_loc then some (HealthPatterns.create_nlp_output_extension (cfg.nlp_output_loc.getD ""))
  else none

/-- The shipped ACD configuration (`ACD_NLP_CONFIG`): fixed system urn, the
dummy output location returned by `acd_get_nlp_output_loc`, default origin. -/
def ACD_NLP_CONFIG : NlpConfig :=
  { nlp_system := "urn:id:COM.IBM.WH.PA.CDP.CDE/1.0.0",
    nlp_output_loc := some "uri://path/acd-123.json",
    insight_id_start := 1 }

/-- Modelled from the spec: `insight_id_maker` (module
`text_analytics.insight.insight_id`) is not in the source tree, only its
callers are.  Per the spec it is a generator yielding the strings
`insight-N` with N starting at the configured origin and incrementing by one
per request; this function gives the string yielded at counter state `n`.
Each tracker entry carries its own counter state. -/
def insight_id_string (n : Nat) : String := "insight-" ++ toString n

/-!
Condition derivation engine
(`nlp/acd/fhir_enrichment/insights/create_condition.py`).
-/

/-- Fields of the unstructured text source that the derivation reads: the
source resource's type, id and subject reference. -/
structure TextSource where
  resource_type : String
  resource_id : Option String
  subject : Option String

/-- Derived FHIR Condition (fields the embedded code touches). -/
structure Condition where
  subject : Option String
  code : Option CC
  meta : Option MetaR
  ext : Option (List Ext)

/-- Embeds `Condition.construct(subject=...)`: the minimal skeleton. -/
def Condition.construct (subject : Option String) : Condition :=
  ⟨subject, none, none, none⟩

/-- Embeds `get_diagnosis_confidences`: one confidence extension per
available score, in source order (explicit, patient reported, discussed,
family history, suspected); a missing diagnosis or usage group raises
AttributeError in the source and is skipped; `None` when the model data is
absent or no score was available. -/
def get_diagnosis_confidences (insight_model_data : Option InsightModelData) : Option (List Ext) :=
  match insight_model_data with
  | none => none
  | some imd =>
    let usage := imd.diagnosis.bind (fun d => d.usage)
    let l : List Ext := []
    let l := match usage with
      | some u => l ++ [create_confidence_extension CONFIDENCE_SCORE_EXPLICIT u.explicit_score]
      | none => l
    let l := match usage with
      | some u => l ++ [create_confidence_extension CONFIDENCE_SCORE_PATIENT_REPORTED u.patient_reported_score]
      | none => l
    let l := match usage with
      | some u => l ++ [create_confidence_extension CONFIDENCE_SCORE_DISCUSSED u.discussed_score]
      | none => l
    let l := match imd.diagnosis with
      | some d => l ++ [create_confidence_extension CONFIDENCE_SCORE_FAMILY_HISTORY d.family_history_score]
      | none => l
    let l := match imd.diagnosis with
      | some d => l ++ [create_confidence_extension CONFIDENCE_SCORE_SUSPECTED d.suspected_score]
      | none => l
    if l.isEmpty then none else some l

/-- Embeds `_append_coding_entries` (`create_condition.py`): appends one plain
coding per comma-separated code. -/
def append_coding_entries (codeable_concept : CC) (system : String) (csv_ids : String) : CC :=
  (pySplitComma csv_ids).foldl (fun cc code_id => append_coding cc system code_id none) codeable_concept

/-- Embeds `add_codings` (`create_condition.py`): the CUI as a UMLS coding
with the preferred name as display (guarded by an `is not None` check), then
one comma-expanding append per truthy terminology field. -/
def add_codings (concept : AcdConcept) (codeable_concept : CC) : CC :=
  let cc := codeable_concept
  let cc := if concept.cui.isSome then
      append_coding cc UMLS_URL (concept.cui.getD "") concept.preferred_name
    else cc
  let cc := if truthyStr concept.snomed_concept_id then
      append_coding_entries cc SNOMED_URL (concept.snomed_concept_id.getD "") else cc
  let cc := if truthyStr concept.nci_code then
      append_coding_entries cc NCI_URL (concept.nci_code.getD "") else cc
  let cc := if truthyStr concept.loinc_id then
      append_coding_entries cc LOINC_URL (concept.loinc_id.getD "") else cc
  let cc := if truthyStr concept.mesh_id then
      append_coding_entries cc MESH_URL (concept.mesh_id.getD "") else cc
  let cc := if truthyStr concept.icd9_code then
      append_coding_entries cc ICD9_URL (concept.icd9_code.getD "") else cc
  let cc := if truthyStr concept.icd10_code then
      append_coding_entries cc ICD10_URL (concept.icd10_code.getD "") else cc
  let cc := if truthyStr concept.rx_norm_id then
      append_coding_entries cc RXNORM_URL (concept.rx_norm_id.getD "") else cc
  cc

/-- Embeds `_add_insight_codings_to_condition`: creates the code concept
(text = preferred name, empty coding list) when absent, then merges the
concept's codings in. -/
def add_insight_codings_to_condition (condition : Condition) (concept : AcdConcept) : Condition :=
  let code := match condition.code with
    | none => CC.mk concept.preferred_name (some [])
    | some c => c
  { condition with code := some (add_codings concept code) }

/-- Embeds `_add_insight_to_condition`: builds the insight id extension, the
confidences, the optional nlp-output extension and the unstructured detail
extension, appends the assembled insight to the condition's meta, then merges
the concept's codings into the condition's code. -/
def add_insight_to_condition (ts : TextSource) (condition : Condition)
    (attr : AcdAttr) (concept : AcdConcept) (insight_id_str : String) (cfg : NlpConfig) : Condition :=
  let insight_id_ext := create_insight_id_extension insight_id_str cfg.nlp_system
  let confidences := get_diagnosis_confidences attr.insight_model_data
  let nlp_output_ext := cfg.create_nlp_output_extension
  let detail := create_derived_from_unstructured_insight_detail_extension
    ts.resource_type ts.resource_id
    ⟨attr.spanBegin, attr.spanEnd, attr.covered_text⟩
    confidences
    (nlp_output_ext.map (fun e => [e]))
  let condition := { condition with meta := add_insight_to_meta_ext condition.meta insight_id_ext detail }
  add_insight_codings_to_condition condition concept

/-- Association-list lookup, embedding a Python dict indexed read. -/
def assocFind {κ ν : Type} [BEq κ] : List (κ × ν) → κ → Option ν
  | [], _ => none
  | (k, v) :: rest, key => if k == key then some v else assocFind rest key

/-- Association-list write, embedding a Python dict indexed write: replaces
in place when the key is present (Python dicts keep insertion order on
update), appends at the end otherwise. -/
def assocUpd {κ ν : Type} [BEq κ] : List (κ × ν) → κ → ν → List (κ × ν)
  | [], key, v => [(key, v)]
  | (k, v') :: rest, key, v => if k == key then (key, v) :: rest else (k, v') :: assocUpd rest key v

/-- Tracker of the condition derivation: dict from CUI (a possibly-absent
string) to (resource under construction, id-maker counter state). -/
abbrev CondTracker := List (Option String × Condition × Nat)

/-- Embeds the attribute loop of `create_conditions_from_insights`: for each
relevant attribute, correlates it to its concept (skipping the attribute on a
miss), creates the tracker entry on the first sighting of the concept's CUI,
and adds one insight to the tracked condition, advancing that entry's
id maker. -/
def condLoop (ts : TextSource) (cfg : NlpConfig) (concepts : List AcdConcept) :
    List AcdAttr → CondTracker → CondTracker
  | [], tracker => tracker
  | attr :: rest, tracker =>
    match get_concept_for_attribute attr concepts with
    | none => condLoop ts cfg concepts rest tracker
    | some concept =>
      let entry := (assocFind tracker concept.cui).getD (Condition.construct ts.subject, cfg.insight_id_start)
      let condition := add_insight_to_condition ts entry.1 attr concept (insight_id_string entry.2) cfg
      condLoop ts cfg concepts rest (assocUpd tracker concept.cui (condition, entry.2 + 1))

/-- Finalisation step of the derivation: appends the resource-level
derived-by-NLP classification extension to a condition. -/
def finalizeCondition (condition : Condition) : Condition :=
  { condition with ext := append_derived_by_nlp_extension_list condition.ext }

/-- Embeds `create_conditions_from_insights`: when both attribute values and
concepts are truthy, runs the tracker loop over the condition-relevant
attributes; returns `none` when the tracker stayed empty, otherwise the
tracked conditions in first-seen-CUI order, each finalised with the
derived-by-NLP extension. -/
def create_conditions_from_insights (ts : TextSource) (acd_output : AcdContainer) (cfg : NlpConfig) :
    Option (List Condition) :=
  let tracker :=
    if truthyList acd_output.attribute_values && truthyList acd_output.concepts then
      condLoop ts cfg (acd_output.concepts.getD [])
        (filter_attribute_values (acd_output.attribute_values.getD []) ANNOTATION_TYPE_CONDITION) []
    else []
  if tracker.isEmpty then none
  else some (tracker.map (fun entry => finalizeCondition entry.2.1))

/-!
Medication derivation engine
(`nlp/acd/fhir_enrichment/insights/create_medication.py`).
-/

/-- FHIR Quantity (fields touched: value, unit). -/
structure Quantity where
  value : ℚ
  unit : Option String

/-- FHIR DosageDoseAndRate (field touched: doseQuantity). -/
structure DoseAndRate where
  doseQuantity : Option Quantity

/-- FHIR Timing (field touched: code). -/
structure TimingR where
  code : Option CC

/-- FHIR Dosage (fields touched: doseAndRate, timing). -/
structure Dosage where
  doseAndRate : Option (List DoseAndRate)
  timing : Option TimingR

/-- Derived FHIR MedicationStatement (fields the embedded code touches). -/
structure MedStatement where
  subject : Option String
  medicationCodeableConcept : CC
  status : String
  dosage : Option (List Dosage)
  meta : Option MetaR
  ext : Option (List Ext)

/-- Numeric value of a list of decimal digit characters. -/
def digitsVal (l : List Char) : Nat :=
  l.foldl (fun a c => 10 * a + (c.toNat - 48)) 0

/-- Parses an unsigned decimal literal: digits with at most one decimal
point, at least one digit overall. -/
def parseUnsignedDecimal (cs : List Char) : Option ℚ :=
  let intPart := cs.takeWhile (fun c => c.isDigit)
  let rest := cs.dropWhile (fun c => c.isDigit)
  match rest with
  | [] => if intPart.isEmpty then none else some (digitsVal intPart : ℚ)
  | '.' :: frac =>
    if frac.all (fun c => c.isDigit) && !(intPart.isEmpty && frac.isEmpty) then
      some ((digitsVal intPart : ℚ) + (digitsVal frac : ℚ) / ((10 : ℚ) ^ frac.length))
    else none
  | _ => none

/-- Models the Python builtin `float` applied to a string: an optional sign
followed by a plain decimal literal yields its exact value, anything else is
a `ValueError` (`none` here).  Exponent, infinity and nan spellings never
occur in the data under study and are not modelled.  `float` applied to a
decimal string never raises `OverflowError` (out-of-range literals evaluate
to infinity), which matters below. -/
def pyFloat (s : String) : Option ℚ :=
  match s.toList with
  | '+' :: rest => parseUnsignedDecimal rest
  | '-' :: rest => (parseUnsignedDecimal rest).map (fun q => -q)
  | cs => parseUnsignedDecimal cs

/-- Embeds `dose_amount = float(amount)` under
`try: ... except OverflowError: ...` in
`_update_codings_and_administration_info`: the handler would leave the
amount unset, but `float` on a string raises `ValueError` (not
`OverflowError`) on non-numeric input, so the handler never fires and the
`ValueError` propagates out. -/
def parse_dose_amount (amount : String) : Except PyErr (Option ℚ) :=
  match pyFloat amount with
  | some v => .ok (some v)
  | none => .error .valueError

/-- Embeds the private drug-from-annotation helper: `drug[0].get("name1")[0]`,
with the `TypeError`/`IndexError`/`AttributeError` handler substituting the
empty dict. -/
def get_drug_from_annotation (a : MedAnnot) : DrugInfo :=
  match a.drug with
  | some (d :: _) =>
    match d.name1 with
    | some (di :: _) => di
    | _ => DrugInfo.empty
  | _ => DrugInfo.empty

/-- Embeds `_create_minimum_medication_statement`: status unknown, codeable
concept seeded with the drug surface form. -/
def create_minimum_medication_statement (subject : Option String) (a : MedAnnot) : MedStatement :=
  let acd_drug := get_drug_from_annotation a
  { subject := subject,
    medicationCodeableConcept := CC.mk acd_drug.drugSurfaceForm (some []),
    status := "unknown",
    dosage := none,
    meta := none,
    ext := none }

/-- Embeds `_add_codings_drug`: the drug CUI as a UMLS coding with the
surface form as display (when the cui key is non-`None`), then one plain
coding per comma-separated rxNormID code (when the key is present). -/
def add_codings_drug (acd_drug : DrugInfo) (codeable_concept : CC) : CC :=
  let cc := if acd_drug.cui.isSome then
      append_coding codeable_concept UMLS_URL (acd_drug.cui.getD "") acd_drug.drugSurfaceForm
    else codeable_concept
  if acd_drug.rxNormID.isSome then
    (pySplitComma (acd_drug.rxNormID.getD "")).foldl
      (fun c code_id => append_coding c RXNORM_URL code_id none) cc
  else cc

/-- Embeds the dosage/timing part of
`_update_codings_and_administration_info` for one administration entry whose
dosage value is present: parses the amount (and unit, when a space is
present), builds the dose entry, and attaches a timing element only when the
frequency matches the fixed AM/PM vocabulary.  A non-numeric amount
propagates `ValueError` (see `parse_dose_amount`). -/
def build_dosage (admin : AdminEntry) (dose_with_units : String) : Except PyErr Dosage :=
  let parsedE : Except PyErr (Option ℚ × Option String) :=
    if pyContainsSpace dose_with_units then
      let dose_info := pySplitSpace dose_with_units
      let amount := pyStripCommas (dose_info.headD "")
      match parse_dose_amount amount with
      | .error e => .error e
      | .ok dose_amount => .ok (dose_amount, some (dose_info.getD 1 ""))
    else
      let amount := pyStripCommas dose_with_units
      match parse_dose_amount amount with
      | .error e => .error e
      | .ok dose_amount => .ok (dose_amount, none)
  match parsedE with
  | .error e => .error e
  | .ok (dose_amount, dose_units) =>
    let doseAndRate : Option (List DoseAndRate) :=
      match dose_amount with
      | some v => some [⟨some ⟨v, dose_units⟩⟩]
      | none => none
    let timing : Option TimingR :=
      match admin.frequencyValue with
      | none => none
      | some frequency =>
        if frequency = "Q AM" ∨ frequency = "Q AM." ∨ frequency = "AM" then
          some ⟨some (CC.mk (some frequency) (some [create_coding TIMING_URL "AM" (some "AM") false]))⟩
        else if frequency = "Q PM" ∨ frequency = "Q PM." ∨ frequency = "PM" then
          some ⟨some (CC.mk (some frequency) (some [create_coding TIMING_URL "PM" (some "PM") false]))⟩
        else none
    .ok { doseAndRate := doseAndRate, timing := timing }

/-- Embeds `_update_codings_and_administration_info`: merges the drug codings
into the medication codeable concept, then, when the annotation has an
administration attribute, processes its first entry (`administration[0]`,
an `IndexError` on an empty list) and appends a dosage when the entry has a
dosage value. -/
def update_codings_and_administration_info (med_statement : MedStatement) (a : MedAnnot) :
    Except PyErr MedStatement :=
  let acd_drug := get_drug_from_annotation a
  let med_statement := { med_statement with
    medicationCodeableConcept := add_codings_drug acd_drug med_statement.medicationCodeableConcept }
  match a.administration with
  | none => .ok med_statement
  | some [] => .error .indexError
  | some (admin :: _) =>
    match admin.dosageValue with
    | none => .ok med_statement
    | some dose_with_units =>
      match build_dosage admin dose_with_units with
      | .error e => .error e
      | .ok dose => .ok { med_statement with dosage := some (med_statement.dosage.getD [] ++ [dose]) }

/-- Embeds `get_medication_confidences`: one confidence extension per
available medication usage score, in source order (taken, considering,
discussed, lab measurement); a missing medication or usage group raises
AttributeError in the source and is skipped. -/
def get_medication_confidences (insight_model_data : InsightModelData) : Option (List Ext) :=
  let usage := insight_model_data.medication.bind (fun m => m.usage)
  let l : List Ext := []
  let l := match usage with
    | some u => l ++ [create_confidence_extension CONFIDENCE_SCORE_MEDICATION_TAKEN u.taken_score]
    | none => l
  let l := match usage with
    | some u => l ++ [create_confidence_extension CONFIDENCE_SCORE_MEDICATION_CONSIDERING u.considering_score]
    | none => l
  let l := match usage with
    | some u => l ++ [create_confidence_extension CONFIDENCE_SCORE_MEDICATION_DISCUSSED u.discussed_score]
    | none => l
  let l := match usage with
    | some u => l ++ [create_confidence_extension CONFIDENCE_SCORE_MEDICATION_MEASUREMENT u.lab_measurement_score]
    | none => l
  if l.isEmpty then none else some l

/-- Embeds `_add_insight_to_medication_statement`: appends the assembled
insight to the medication statement's meta, then updates codings and
administration info. -/
def add_insight_to_medication_statement (ts : TextSource) (med_statement : MedStatement)
    (attr : AcdAttr) (medInd : MedAnnot) (insight_id_str : String) (cfg : NlpConfig) :
    Except PyErr MedStatement :=
  let insight_id_ext := create_insight_id_extension insight_id_str cfg.nlp_system
  let confidences := match attr.insight_model_data with
    | some imd => get_medication_confidences imd
    | none => none
  let nlp_output_ext := cfg.create_nlp_output_extension
  let detail := create_derived_from_unstructured_insight_detail_extension
    ts.resource_type ts.resource_id
    ⟨attr.spanBegin, attr.spanEnd, attr.covered_text⟩
    confidences
    (nlp_output_ext.map (fun e => [e]))
  let med_statement := { med_statement with
    meta := add_insight_to_meta_ext med_statement.meta insight_id_ext detail }
  update_codings_and_administration_info med_statement medInd

/-- Tracker of the medication derivation. -/
abbrev MedTracker := List (Option String × MedStatement × Nat)

/-- Embeds the attribute loop of `create_med_statements_from_insights`.  The
source assigns `cui = medInd.cui` without checking the correlation result for
`None`, so a correlation miss raises `AttributeError` instead of skipping the
attribute. -/
def medLoop (ts : TextSource) (cfg : NlpConfig) (meds : List MedAnnot) :
    List AcdAttr → MedTracker → Except PyErr MedTracker
  | [], tracker => .ok tracker
  | attr :: rest, tracker =>
    match get_annotation_for_attribute attr meds with
    | none => .error .attributeError
    | some medInd =>
      let entry := (assocFind tracker medInd.cui).getD
        (create_minimum_medication_statement ts.subject medInd, cfg.insight_id_start)
      match add_insight_to_medication_statement ts entry.1 attr medInd (insight_id_string entry.2) cfg with
      | .error e => .error e
      | .ok med => medLoop ts cfg meds rest (assocUpd tracker medInd.cui (med, entry.2 + 1))

/-- Finalisation step: appends the resource-level derived-by-NLP extension to
a medication statement. -/
def finalizeMedStatement (med_statement : MedStatement) : MedStatement :=
  { med_statement with ext := append_derived_by_nlp_extension_list med_statement.ext }

/-- Embeds `create_med_statements_from_insights`: when both attribute values
and medication annotations are truthy, runs the tracker loop over the
medication-relevant attributes; `none` when the tracker stayed empty, else
the tracked statements in first-seen-CUI order, finalised. -/
def create_med_statements_from_insights (ts : TextSource) (acd_output : AcdContainer) (cfg : NlpConfig) :
    Except PyErr (Option (List MedStatement)) :=
  let trackerE : Except PyErr MedTracker :=
    if truthyList acd_output.attribute_values && truthyList acd_output.medication_ind then
      medLoop ts cfg (acd_output.medication_ind.getD [])
        (filter_attribute_values (acd_output.attribute_values.getD []) ANNOTATION_TYPE_MEDICATION) []
    else .ok []
  match trackerE with
  | .error e => .error e
  | .ok tracker =>
    if tracker.isEmpty then .ok none
    else .ok (some (tracker.map (fun entry => finalizeMedStatement entry.2.1)))

/-!
Top-level derivation pipeline
(`nlp/acd/fhir_enrichment/enrich_fhir_resource.py`).
-/

/-- A derived resource in a bundle entry. -/
inductive DerivedResource where
  | cond (c : Condition)
  | med (m : MedStatement)

/-- Embeds `create_new_resources_from_insights`: derives conditions and
medication statements, returns `none` when neither list is truthy, otherwise
a transaction bundle with one POST entry per condition (in order) followed by
one POST entry per medication statement. -/
def create_new_resources_from_insights (ts : TextSource) (insights : AcdContainer) (cfg : NlpConfig) :
    Except PyErr (Option (Bundle DerivedResource)) :=
  let conditions := create_conditions_from_insights ts insights cfg
  match create_med_statements_from_insights ts insights cfg with
  | .error e => .error e
  | .ok med_statements =>
    if !truthyList conditions && !truthyList med_statements then
      .ok none
    else
      let bundle_entries :=
        (if truthyList conditions then
          (conditions.getD []).map (fun c => BundleEntryDfn.mk (DerivedResource.cond c) "POST" "Condition")
         else []) ++
        (if truthyList med_statements then
          (med_statements.getD []).map (fun m => BundleEntryDfn.mk (DerivedResource.med m) "POST" "MedicationStatement")
         else [])
      .ok (some (create_transaction_bundle bundle_entries))

/-!
Codeable-concept enrichment engine
(`nlp/acd/fhir_enrichment/insights/update_codeable_concepts.py` and
`enrich_fhir_resource.py`).
-/

/-- Resource kinds dispatched on by `_get_acd_attr_types` via `isinstance`
chains; `other` covers every non-enrichable kind. -/
inductive ResourceKind where
  | allergyIntolerance
  | condition
  | immunization
  | other
deriving DecidableEq

/-- Embeds `_get_acd_attr_types`: the attribute-type list relevant to the
resource's kind, `none` for unsupported kinds. -/
def get_acd_attr_types (kind : ResourceKind) : Option (List String) :=
  match kind with
  | .allergyIntolerance => some ANNOTATION_TYPE_ALLERGY
  | .condition => some ANNOTATION_TYPE_CONDITION
  | .immunization => some ANNOTATION_TYPE_IMMUNIZATION
  | .other => none

/-- Resource being enriched: its kind, type name, id, the codeable concepts
that concept references point into (by index), and its meta. -/
structure EnrichResource where
  kind : ResourceKind
  resource_type : String
  resource_id : Option String
  concepts : List CC
  meta : Option MetaR

/-- Binding between a codeable-concept reference within the resource and the
ACD response for its adjusted text (`AcdConceptRef` /
`AdjustedConceptRef`): the code reads `adjusted_concept.concept_ref.code_ref`
(here the index of the referenced concept within the resource) and
`adjusted_concept.concept_ref.fhir_path`. -/
structure AcdConceptRef where
  conceptIndex : Nat
  fhir_path : String
  acd_response : AcdContainer

/-- Embeds `_get_source_for_attribute` (`update_codeable_concepts.py`):
iterating a `None` concept list raises `TypeError`; otherwise the first
concept with the referenced uid, or `none`. -/
def get_source_for_attribute (attr : AcdAttr) (concepts : Option (List AcdConcept)) :
    Except PyErr (Option AcdConcept) :=
  match concepts with
  | none => .error .typeError
  | some cl => .ok (cl.find? (fun concept => concept.uid == attr.conceptUid))

/-- Spec-side test of "already marked derived": the coding carries a category
extension whose codeable concept holds the NLP classification coding. -/
def isDerivedTagged (coding : Cdg) : Bool :=
  match getExtensionWithUrl coding.ext INSIGHT_CATEGORY_URL with
  | none => false
  | some e =>
    match e.value with
    | .vCC cc => (cc.coding.getD []).any (fun c =>
        c.system == some CLASSIFICATION_DERIVED_SYSTEM && c.code == some CLASSIFICATION_DERIVED_CODE)
    | _ => false

/-- Modelled from the spec: the enrichment path imports
`append_derived_by_nlp_coding` from `text_analytics.fhir.fhir_object_utils`,
a module that is not in the source tree, and sums its result into a count
(the in-tree copy in `text_analytics/fhir_object_utils.py` returns nothing).
Per spec section 4.3, `append_derived_coding` appends a new NLP-tagged coding
iff no existing entry with that (system, code) is already tagged derived, and
returns whether an append occurred. -/
def append_derived_by_nlp_coding_counted (codeable_concept : CC) (system code : String)
    (display : Option String) : CC × Bool :=
  let codings := codeable_concept.coding.getD []
  let cc := CC.mk codeable_concept.text (some codings)
  let existing := find_codings cc system code
  if existing.any isDerivedTagged then (cc, false)
  else (CC.mk cc.text (some (codings ++ [create_coding system code display true])), true)

/-- Loop body of `_append_coding_entries_with_extension`: one derived append
per code, the append count accumulated. -/
def appendDerivedCodes (system : String) : List String → CC → Nat → CC × Nat
  | [], cc, n => (cc, n)
  | code_id :: rest, cc, n =>
    let r := append_derived_by_nlp_coding_counted cc system code_id none
    appendDerivedCodes system rest r.1 (n + (if r.2 then 1 else 0))

/-- Embeds `_append_coding_entries_with_extension`: one derived append per
comma-separated code, summing the appends. -/
def append_coding_entries_with_extension (codeable_concept : CC) (system : String) (csv_code_id : String) :
    CC × Nat :=
  appendDerivedCodes system (pySplitComma csv_code_id) codeable_concept 0

/-- Embeds `_append_codings_with_nlp_derived_extension`: the CUI as a derived
UMLS coding with the preferred name as display, then one comma-expanding
derived append per non-`None` terminology field (these use `is not None`
checks, unlike the truthiness checks of `add_codings` in
`create_condition.py`). -/
def append_codings_with_nlp_derived_extension (acd_concept : AcdConcept) (codeable_concept : CC) :
    CC × Nat :=
  let st : CC × Nat := (codeable_concept, 0)
  let st := if acd_concept.cui.isSome then
      let r := append_derived_by_nlp_coding_counted st.1 UMLS_URL (acd_concept.cui.getD "") acd_concept.preferred_name
      (r.1, st.2 + (if r.2 then 1 else 0))
    else st
  let st := if acd_concept.snomed_concept_id.isSome then
      let r := append_coding_entries_with_extension st.1 SNOMED_URL (acd_concept.snomed_concept_id.getD "")
      (r.1, st.2 + r.2)
    else st
  let st := if acd_concept.nci_code.isSome then
      let r := append_coding_entries_with_extension st.1 NCI_URL (acd_concept.nci_code.getD "")
      (r.1, st.2 + r.2)
    else st
  let st := if acd_concept.loinc_id.isSome then
      let r := append_coding_entries_with_extension st.1 LOINC_URL (acd_concept.loinc_id.getD "")
      (r.1, st.2 + r.2)
    else st
  let st := if acd_concept.mesh_id.isSome then
      let r := append_coding_entries_with_extension st.1 MESH_URL (acd_concept.mesh_id.getD "")
      (r.1, st.2 + r.2)
    else st
  let st := if acd_concept.icd9_code.isSome then
      let r := append_coding_entries_with_extension st.1 ICD9_URL (acd_concept.icd9_code.getD "")
      (r.1, st.2 + r.2)
    else st
  let st := if acd_concept.icd10_code.isSome then
      let r := append_coding_entries_with_extension st.1 ICD10_URL (acd_concept.icd10_code.getD "")
      (r.1, st.2 + r.2)
    else st
  let st := if acd_concept.rx_norm_id.isSome then
      let r := append_coding_entries_with_extension st.1 RXNORM_URL (acd_concept.rx_norm_id.getD "")
      (r.1, st.2 + r.2)
    else st
  st

/-- Embeds `create_derived_from_concept_insight_detail_extension`
(`src/main/py/text_analytics/fhir_object_utils.py`): nlp extensions (when
truthy) followed by the reference-path extension, under one detail node. -/
def create_derived_from_concept_insight_detail_extension (reference_path_ext : Ext)
    (nlp_extensions : Option (List Ext)) : Ext :=
  Ext.mk INSIGHT_DETAIL_URL ExtVal.noneV
    (some ((if truthyList nlp_extensions then nlp_extensions.getD [] else []) ++ [reference_path_ext]))

/-- Modelled from the spec: `append_insight_with_path_expr_to_resource_meta`
is imported from the missing `text_analytics.fhir.fhir_object_utils` module.
Per spec sections 4.2 and 4.6 it attaches one insight to the resource meta
using the structured-detail variant (the reference-path node for the
concept-reference's FHIR path plus the optional raw-output reference);
composed here from the in-tree builders. -/
def append_insight_with_path_expr_to_resource_meta (meta : Option MetaR) (insight_id system fhir_path : String)
    (nlp_output_uri : Option String) : Option MetaR :=
  let id_ext := create_insight_id_extension insight_id system
  let detail := create_derived_from_concept_insight_detail_extension
    (create_reference_path_extension fhir_path)
    (nlp_output_uri.map (fun u => [create_nlp_output_extension u]))
  add_insight_to_meta_ext meta id_ext detail

/-- Embeds the attribute loop of `_add_codeable_concept_insight`: correlates
each relevant attribute to its source concept, appends derived codings to the
referenced codeable concept, and attaches one insight (consuming one id)
exactly when that occurrence appended at least one coding. -/
def enrichAttrLoop (cfg : NlpConfig) (fhir_path : String) (concepts : Option (List AcdConcept)) :
    List AcdAttr → CC → Option MetaR → Nat → Nat → Except PyErr (CC × Option MetaR × Nat × Nat)
  | [], cc, meta, nextId, total => .ok (cc, meta, nextId, total)
  | attr :: rest, cc, meta, nextId, total =>
    match get_source_for_attribute attr concepts with
    | .error e => .error e
    | .ok none => .error .attributeError
    | .ok (some acd_concept) =>
      let r := append_codings_with_nlp_derived_extension acd_concept cc
      if r.2 > 0 then
        enrichAttrLoop cfg fhir_path concepts rest r.1
          (append_insight_with_path_expr_to_resource_meta meta (insight_id_string nextId)
            cfg.nlp_system fhir_path cfg.nlp_output_loc)
          (nextId + 1) (total + r.2)
      else
        enrichAttrLoop cfg fhir_path concepts rest r.1 meta nextId total

/-- Embeds `_add_codeable_concept_insight`: skips silently (zero additions)
when the resource kind is unsupported or the response has no truthy
attribute values; otherwise runs the attribute loop against the referenced
codeable concept.  Returns the updated resource, the id-maker state, and the
number of codings added.  A correlation miss raises `AttributeError`
(`acd_concept.cui` on `None` inside
`_append_codings_with_nlp_derived_extension`). -/
def add_codeable_concept_insight (res : EnrichResource) (insight : AcdConceptRef) (nextId : Nat)
    (cfg : NlpConfig) : Except PyErr (EnrichResource × Nat × Nat) :=
  match get_acd_attr_types res.kind with
  | none => .ok (res, nextId, 0)
  | some types =>
    if truthyList insight.acd_response.attribute_values then
      let attrs := filter_attribute_values (insight.acd_response.attribute_values.getD []) types
      match enrichAttrLoop cfg insight.fhir_path insight.acd_response.concepts attrs
          (res.concepts.getD insight.conceptIndex (CC.mk none none)) res.meta nextId 0 with
      | .error e => .error e
      | .ok (cc, meta, nextId', total) =>
        .ok ({ res with concepts := res.concepts.set insight.conceptIndex cc, meta := meta }, nextId', total)
    else .ok (res, nextId, 0)

/-- Embeds the pair loop of `update_codeable_concepts_and_meta_with_insights`,
threading the shared id maker and the running total. -/
def updateConceptsLoop (cfg : NlpConfig) :
    List AcdConceptRef → EnrichResource → Nat → Nat → Except PyErr (EnrichResource × Nat × Nat)
  | [], res, nextId, total => .ok (res, nextId, total)
  | ci :: rest, res, nextId, total =>
    match add_codeable_concept_insight res ci nextId cfg with
    | .error e => .error e
    | .ok (res', nextId', num) => updateConceptsLoop cfg rest res' nextId' (total + num)

/-- Embeds `update_codeable_concepts_and_meta_with_insights`: one shared id
maker starting at the configured origin; returns the enriched resource and
the total number of derived codings added across all pairs. -/
def update_codeable_concepts_and_meta_with_insights (fhir_resource : EnrichResource)
    (concept_insights : List AcdConceptRef) (cfg : NlpConfig) : Except PyErr (EnrichResource × Nat) :=
  match updateConceptsLoop cfg concept_insights fhir_resource cfg.insight_id_start 0 with
  | .error e => .error e
  | .ok (res, _, total) => .ok (res, total)

/-- Python `str` of an optional string (`str(None)` is the string None). -/
def pyStr : Option String → String
  | none => "None"
  | some s => s

/-- Embeds `enrich_resource_codeable_concepts`: updates the resource, then
emits a single-entry PUT bundle when at least one coding was added, `none`
otherwise. -/
def enrich_resource_codeable_concepts (concept_insights : List AcdConceptRef)
    (fhir_resource : EnrichResource) (cfg : NlpConfig) : Except PyErr (Option (Bundle EnrichResource)) :=
  match update_codeable_concepts_and_meta_with_insights fhir_resource concept_insights cfg with
  | .error e => .error e
  | .ok (res, num_updates) =>
    if num_updates > 0 then
      .ok (some (create_transaction_bundle
        [BundleEntryDfn.mk res "PUT" (res.resource_type ++ "/" ++ pyStr res.resource_id)]))
    else .ok none

/-!
Generic characterisation of the tracker loop used by both derivation
engines: a Python dict is folded over correlated (attribute, source) pairs,
creating the entry for a key at first sighting and updating it in place on
later sightings.  `trackNew` is the group-by normal form the loop computes.
-/

section TrackerMachine

variable {α ρ κ ν : Type} [BEq κ] [LawfulBEq κ]

theorem assocFind_none_not_mem (t : List (κ × ν)) (k : κ) (h : assocFind t k = none) :
    k ∉ t.map Prod.fst := by
  induction t with
  | nil => simp
  | cons e rest ih =>
    obtain ⟨k1, v1⟩ := e
    simp only [assocFind] at h
    cases hk : (k1 == k) with
    | true => simp [hk] at h
    | false =>
      rw [hk] at h
      simp only [Bool.false_eq_true, if_false] at h
      simp only [List.map_cons, List.mem_cons]
      rintro (rfl | hmem)
      · simp at hk
      · exact ih h hmem

theorem assocFind_some_mem (t : List (κ × ν)) (k : κ) (v : ν) (h : assocFind t k = some v) :
    k ∈ t.map Prod.fst := by
  induction t with
  | nil => simp [assocFind] at h
  | cons e rest ih =>
    obtain ⟨k1, v1⟩ := e
    simp only [assocFind] at h
    cases hk : (k1 == k) with
    | true =>
      simp only [List.map_cons, List.mem_cons]
      exact Or.inl (eq_of_beq hk).symm
    | false =>
      rw [hk] at h
      simp only [Bool.false_eq_true, if_false] at h
      exact List.mem_cons_of_mem _ (ih h)

theorem assocUpd_of_none (t : List (κ × ν)) (k : κ) (v : ν) (h : assocFind t k = none) :
    assocUpd t k v = t ++ [(k, v)] := by
  induction t with
  | nil => rfl
  | cons e rest ih =>
    obtain ⟨k1, v1⟩ := e
    simp only [assocFind] at h
    cases hk : (k1 == k) with
    | true => simp [hk] at h
    | false =>
      rw [hk] at h
      simp only [Bool.false_eq_true, if_false] at h
      simp only [assocUpd, hk, Bool.false_eq_true, if_false, List.cons_append]
      exact congrArg _ (ih h)

theorem assocUpd_keys_of_some (t : List (κ × ν)) (k : κ) (e : ν) (v : ν)
    (h : assocFind t k = some e) : (assocUpd t k v).map Prod.fst = t.map Prod.fst := by
  induction t with
  | nil => simp [assocFind] at h
  | cons e' rest ih =>
    obtain ⟨k1, v1⟩ := e'
    simp only [assocFind] at h
    cases hk : (k1 == k) with
    | true =>
      simp only [assocUpd, hk, if_true, List.map_cons]
      rw [eq_of_beq hk]
    | false =>
      rw [hk] at h
      simp only [Bool.false_eq_true, if_false] at h
      simp only [assocUpd, hk, Bool.false_eq_true, if_false, List.map_cons]
      exact congrArg _ (ih h)

variable (key : α → κ) (init : α → ρ) (add : α → ρ → Nat → ρ) (start : Nat)

/-- One tracker-loop iteration per element: look up (or create) the entry
for the element's key, apply the add step and advance that entry's
counter. -/
def trackLoop : List α → List (κ × ρ × Nat) → List (κ × ρ × Nat)
  | [], t => t
  | a :: rest, t =>
    let entry := (assocFind t (key a)).getD (init a, start)
    trackLoop rest (assocUpd t (key a) (add a entry.1 entry.2, entry.2 + 1))

/-- Applies the add step to every element of a group, threading the counter. -/
def addAllP : List α → ρ → Nat → ρ × Nat
  | [], r, n => (r, n)
  | a :: rest, r, n => addAllP rest (add a r n) (n + 1)

/-- Group-by normal form of the tracker loop: one entry per first-seen key
not already seen, valued by folding the add step over that key's group. -/
def trackNew (seen : List κ) : List α → List (κ × ρ × Nat)
  | [] => []
  | a :: rest =>
    if key a ∈ seen then trackNew seen rest
    else
      (key a, addAllP add (rest.filter (fun b => key b == key a)) (add a (init a) start) (start + 1)) ::
        trackNew (key a :: seen) rest

/-- First occurrence of each key, in order, skipping keys already seen. -/
def firstSeenFrom (seen : List κ) : List κ → List κ
  | [] => []
  | k :: rest => if k ∈ seen then firstSeenFrom seen rest else k :: firstSeenFrom (k :: seen) rest

/-- Distinct keys in first-seen order. -/
def firstSeen (l : List κ) : List κ := firstSeenFrom [] l

/-- Value the tracker ends up holding for a key, as a function of that key's
group (`none` when the group is empty). -/
def groupApply : List α → Option (ρ × Nat)
  | [] => none
  | a :: g => some (addAllP add g (add a (init a) start) (start + 1))

theorem trackNew_seen_congr (l : List α) : ∀ (s1 s2 : List κ), (∀ x, x ∈ s1 ↔ x ∈ s2) →
    trackNew key init add start s1 l = trackNew key init add start s2 l := by
  induction l with
  | nil => intro s1 s2 _; rfl
  | cons a rest ih =>
    intro s1 s2 hs
    simp only [trackNew]
    by_cases hmem : key a ∈ s1
    · rw [if_pos hmem, if_pos ((hs (key a)).1 hmem)]
      exact ih s1 s2 hs
    · rw [if_neg hmem, if_neg (fun hc => hmem ((hs (key a)).2 hc))]
      refine congrArg _ (ih _ _ ?_)
      intro x
      simp only [List.mem_cons]
      exact or_congr Iff.rfl (hs x)

theorem trackNew_map_fst (l : List α) : ∀ (seen : List κ),
    (trackNew key init add start seen l).map Prod.fst = firstSeenFrom seen (l.map key) := by
  induction l with
  | nil => intro seen; rfl
  | cons a rest ih =>
    intro seen
    simp only [trackNew, List.map_cons, firstSeenFrom]
    by_cases hmem : key a ∈ seen
    · rw [if_pos hmem, if_pos hmem]; exact ih seen
    · rw [if_neg hmem, if_neg hmem, List.map_cons]
      exact congrArg _ (ih _)

theorem firstSeenFrom_not_mem_seen (l : List κ) : ∀ (seen : List κ) (x : κ),
    x ∈ firstSeenFrom seen l → x ∉ seen := by
  induction l with
  | nil => intro seen x h; simp [firstSeenFrom] at h
  | cons k rest ih =>
    intro seen x h
    simp only [firstSeenFrom] at h
    by_cases hmem : k ∈ seen
    · rw [if_pos hmem] at h; exact ih seen x h
    · rw [if_neg hmem] at h
      rcases List.mem_cons.1 h with rfl | h'
      · exact hmem
      · intro hx
        exact ih (k :: seen) x h' (List.mem_cons_of_mem _ hx)

theorem firstSeenFrom_nodup (l : List κ) : ∀ (seen : List κ), (firstSeenFrom seen l).Nodup := by
  induction l with
  | nil => intro seen; simp [firstSeenFrom]
  | cons k rest ih =>
    intro seen
    simp only [firstSeenFrom]
    by_cases hmem : k ∈ seen
    · rw [if_pos hmem]; exact ih seen
    · rw [if_neg hmem]
      refine List.nodup_cons.2 ⟨?_, ih (k :: seen)⟩
      intro hk
      exact firstSeenFrom_not_mem_seen rest (k :: seen) k hk (List.mem_cons_self _ _)

theorem trackNew_assocFind (l : List α) : ∀ (seen : List κ) (k : κ), k ∉ seen →
    assocFind (trackNew key init add start seen l) k =
      groupApply init add start (l.filter (fun b => key b == k)) := by
  induction l with
  | nil => intro seen k _; rfl
  | cons a rest ih =>
    intro seen k hk
    simp only [trackNew, List.filter_cons]
    by_cases hmem : key a ∈ seen
    · rw [if_pos hmem]
      have hne : (key a == k) = false := by
        by_cases h : key a = k
        · exact absurd (h ▸ hmem) hk
        · simpa using h
      rw [hne]
      simp only [Bool.false_eq_true, if_false]
      exact ih seen k hk
    · rw [if_neg hmem]
      by_cases heq : key a = k
      · subst heq
        simp only [beq_self_eq_true, if_true, assocFind, groupApply]
      · have hne : (key a == k) = false := by simpa using heq
        rw [hne]
        simp only [Bool.false_eq_true, if_false, assocFind]
        rw [hne]
        exact ih (key a :: seen) k (by
          intro hc
          rcases List.mem_cons.1 hc with h' | h'
          · exact heq h'.symm
          · exact hk h')

theorem map_addAll_congr (t : List (κ × ρ × Nat)) (a : α) (rest : List α)
    (hk : (key a) ∉ t.map Prod.fst) :
    t.map (fun e => (e.1, addAllP add ((a :: rest).filter (fun b => key b == e.1)) e.2.1 e.2.2)) =
    t.map (fun e => (e.1, addAllP add (rest.filter (fun b => key b == e.1)) e.2.1 e.2.2)) := by
  apply List.map_congr_left
  intro e he
  have hne : (key a == e.1) = false := by
    by_cases h : key a = e.1
    · exact absurd (h ▸ (List.mem_map.2 ⟨e, he, rfl⟩)) hk
    · simpa using h
  simp only [List.filter_cons, hne, Bool.false_eq_true, if_false]

theorem assocUpd_map_addAll (a : α) (rest : List α) :
    ∀ (t : List (κ × ρ × Nat)) (r : ρ) (n : Nat), (t.map Prod.fst).Nodup →
    assocFind t (key a) = some (r, n) →
    (assocUpd t (key a) (add a r n, n + 1)).map
        (fun e => (e.1, addAllP add (rest.filter (fun b => key b == e.1)) e.2.1 e.2.2)) =
      t.map (fun e => (e.1, addAllP add ((a :: rest).filter (fun b => key b == e.1)) e.2.1 e.2.2)) := by
  intro t
  induction t with
  | nil => intro r n _ h; simp [assocFind] at h
  | cons e' t' ih =>
    intro r n hnd h
    obtain ⟨k1, v1⟩ := e'
    simp only [assocFind] at h
    cases hk : (k1 == key a) with
    | true =>
      rw [hk] at h
      simp only [if_true] at h
      have hkeq : k1 = key a := eq_of_beq hk
      have hval : v1 = (r, n) := Option.some.inj h
      subst hkeq
      subst hval
      simp only [assocUpd, beq_self_eq_true, if_true, List.map_cons]
      have hnotin : key a ∉ t'.map Prod.fst := by
        have h2 := hnd
        simp only [List.map_cons] at h2
        exact (List.nodup_cons.1 h2).1
      rw [map_addAll_congr key add t' a rest hnotin]
      simp only [List.filter_cons, beq_self_eq_true, if_true, addAllP]
    | false =>
      rw [hk] at h
      simp only [Bool.false_eq_true, if_false] at h
      have hne : (key a == k1) = false := by
        cases hcc : (key a == k1) with
        | true =>
          rw [eq_of_beq hcc] at hk
          simp at hk
        | false => rfl
      simp only [assocUpd, hk, Bool.false_eq_true, if_false, List.map_cons]
      rw [ih r n (by
        have h2 := hnd
        simp only [List.map_cons] at h2
        exact (List.nodup_cons.1 h2).2) h]
      simp only [List.filter_cons, hne, Bool.false_eq_true, if_false]

theorem trackLoop_eq_trackNew (l : List α) : ∀ (t : List (κ × ρ × Nat)), (t.map Prod.fst).Nodup →
    trackLoop key init add start l t =
      t.map (fun e => (e.1, addAllP add (l.filter (fun b => key b == e.1)) e.2.1 e.2.2)) ++
        trackNew key init add start (t.map Prod.fst) l := by
  induction l with
  | nil =>
    intro t _
    simp only [trackLoop, trackNew, List.filter_nil, addAllP, List.append_nil]
    have heq : t.map (fun (e : κ × ρ × Nat) => (e.1, e.2.1, e.2.2)) = t.map id := by
      apply List.map_congr_left
      intro e _
      rfl
    rw [heq, List.map_id]
  | cons a rest ih =>
    intro t hnd
    simp only [trackLoop]
    cases hfind : assocFind t (key a) with
    | some e =>
      obtain ⟨r, n⟩ := e
      simp only [Option.getD_some]
      rw [ih _ (by rw [assocUpd_keys_of_some t (key a) (r, n) _ hfind]; exact hnd)]
      rw [assocUpd_keys_of_some t (key a) (r, n) _ hfind]
      rw [assocUpd_map_addAll key add a rest t r n hnd hfind]
      have hmem : key a ∈ t.map Prod.fst := assocFind_some_mem t (key a) (r, n) hfind
      have htn : trackNew key init add start (t.map Prod.fst) (a :: rest) =
          trackNew key init add start (t.map Prod.fst) rest := by
        simp only [trackNew, hmem, if_true]
      rw [htn]
    | none =>
      simp only [Option.getD_none]
      have hnotmem := assocFind_none_not_mem t (key a) hfind
      rw [assocUpd_of_none t (key a) _ hfind]
      have hnd' : (((t ++ [(key a, add a (init a) start, start + 1)]).map Prod.fst)).Nodup := by
        simp only [List.map_append, List.map_cons, List.map_nil]
        rw [List.nodup_append]
        refine ⟨hnd, List.nodup_singleton _, ?_⟩
        intro x hx hx2
        simp only [List.mem_singleton] at hx2
        subst hx2
        exact hnotmem hx
      rw [ih _ hnd']
      simp only [List.map_append, List.map_cons, List.map_nil]
      rw [map_addAll_congr key add t a rest hnotmem]
      have htn : trackNew key init add start (t.map Prod.fst) (a :: rest) =
          (key a, addAllP add (rest.filter (fun b => key b == key a)) (add a (init a) start) (start + 1)) ::
            trackNew key init add start (key a :: t.map Prod.fst) rest := by
        simp only [trackNew]
        rw [if_neg hnotmem]
      rw [htn, List.append_assoc]
      refine congrArg _ ?_
      simp only [List.map_cons, List.map_nil, List.singleton_append, List.cons_append,
        List.nil_append]
      refine congrArg _ ?_
      refine trackNew_seen_congr key init add start rest _ _ ?_
      intro x
      simp only [List.mem_append, List.mem_cons, List.mem_singleton, List.not_mem_nil, or_false]
      exact or_comm

theorem trackLoop_nil_eq (l : List α) :
    trackLoop key init add start l [] = trackNew key init add start [] l := by
  rw [trackLoop_eq_trackNew key init add start l [] (by simp)]
  rfl

end TrackerMachine

section TrackerProperties

variable {α ρ κ : Type} [BEq κ] [LawfulBEq κ]
variable (key : α → κ) (init : α → ρ) (add : α → ρ → Nat → ρ) (start : Nat)
variable (mc : ρ → Nat) (ids : ρ → List String)

theorem addAllP_counter (g : List α) : ∀ (r : ρ) (n : Nat), (addAllP add g r n).2 = n + g.length := by
  induction g with
  | nil => intro r n; simp [addAllP]
  | cons a g' ih =>
    intro r n
    simp only [addAllP, List.length_cons, ih]
    omega

theorem addAllP_mc (g : List α) : ∀ (r : ρ) (n : Nat),
    (∀ a ∈ g, ∀ r' n', mc (add a r' n') = mc r' + 1) →
    mc (addAllP add g r n).1 = mc r + g.length := by
  induction g with
  | nil => intro r n _; simp [addAllP]
  | cons a g' ih =>
    intro r n hstep
    simp only [addAllP, List.length_cons]
    rw [ih (add a r n) (n + 1) (fun b hb => hstep b (List.mem_cons_of_mem _ hb))]
    rw [hstep a (List.mem_cons_self _ _)]
    omega

theorem range_map_id_shift (s : Nat) (len : Nat) :
    insight_id_string s :: (List.range len).map (fun j => insight_id_string (s + 1 + j)) =
      (List.range (len + 1)).map (fun j => insight_id_string (s + j)) := by
  rw [List.range_succ_eq_map, List.map_cons, List.map_map]
  refine congrArg₂ _ (by rw [Nat.add_zero]) ?_
  apply List.map_congr_left
  intro j _
  simp only [Function.comp_apply, Nat.succ_eq_add_one]
  ring_nf

theorem addAllP_ids (g : List α) : ∀ (r : ρ) (n : Nat),
    (∀ a ∈ g, ∀ r' n', ids (add a r' n') = ids r' ++ [insight_id_string n']) →
    ids (addAllP add g r n).1 =
      ids r ++ (List.range g.length).map (fun j => insight_id_string (n + j)) := by
  induction g with
  | nil => intro r n _; simp [addAllP]
  | cons a g' ih =>
    intro r n hstep
    simp only [addAllP, List.length_cons]
    rw [ih (add a r n) (n + 1) (fun b hb => hstep b (List.mem_cons_of_mem _ hb))]
    rw [hstep a (List.mem_cons_self _ _)]
    rw [List.append_assoc]
    refine congrArg _ ?_
    rw [List.singleton_append, range_map_id_shift]

theorem trackNew_entry_props (pairs : List α) (k : κ) (e : ρ × Nat)
    (hmc : ∀ a ∈ pairs, ∀ r n, mc (add a r n) = mc r + 1)
    (hids : ∀ a ∈ pairs, ∀ r n, ids (add a r n) = ids r ++ [insight_id_string n])
    (hinitmc : ∀ a, mc (init a) = 0)
    (hinitids : ∀ a, ids (init a) = [])
    (hfind : assocFind (trackNew key init add start [] pairs) k = some e) :
    mc e.1 = (pairs.filter (fun b => key b == k)).length ∧
      ids e.1 = (List.range (pairs.filter (fun b => key b == k)).length).map
        (fun j => insight_id_string (start + j)) ∧
      e.2 = start + (pairs.filter (fun b => key b == k)).length := by
  rw [trackNew_assocFind key init add start pairs [] k (by simp)] at hfind
  cases hgm : pairs.filter (fun b => key b == k) with
  | nil => rw [hgm] at hfind; simp [groupApply] at hfind
  | cons a g' =>
    rw [hgm] at hfind
    simp only [groupApply, Option.some.injEq] at hfind
    have hamem : a ∈ pairs :=
      List.mem_of_mem_filter (by rw [hgm]; exact List.mem_cons_self a g')
    have hsub' : ∀ b ∈ g', b ∈ pairs := fun b hb =>
      List.mem_of_mem_filter (p := fun b => key b == k) (by rw [hgm]; exact List.mem_cons_of_mem _ hb)
    refine ⟨?_, ?_, ?_⟩
    · rw [← hfind]
      rw [addAllP_mc add mc g' (add a (init a) start) (start + 1)
        (fun b hb r n => hmc b (hsub' b hb) r n)]
      rw [hmc a hamem, hinitmc a]
      simp only [List.length_cons]
      omega
    · rw [← hfind]
      rw [addAllP_ids add ids g' (add a (init a) start) (start + 1)
        (fun b hb r n => hids b (hsub' b hb) r n)]
      rw [hids a hamem, hinitids a]
      simp only [List.nil_append, List.length_cons, List.singleton_append]
      exact range_map_id_shift start g'.length
    · rw [← hfind, addAllP_counter add g' (add a (init a) start) (start + 1)]
      simp only [List.length_cons]
      omega

end TrackerProperties

/-- Structure helper: an association list whose key projection is a two
element list is itself a two element list with those keys. -/
theorem map_fst_eq_pair {κ ν : Type} {l : List (κ × ν)} {x y : κ}
    (h : l.map Prod.fst = [x, y]) : ∃ v1 v2, l = [(x, v1), (y, v2)] := by
  match l, h with
  | [(a, v1), (b, v2)], h =>
    simp only [List.map_cons, List.map_nil, List.cons.injEq, and_true] at h
    exact ⟨v1, v2, by rw [h.1, h.2]⟩

/-!
Instantiation of the tracker characterisation for the condition engine.
-/

/-- CUI key of a correlated (attribute, concept) pair. -/
def condKey (p : AcdAttr × AcdConcept) : Option String := p.2.cui

/-- Tracker initialiser of the condition engine. -/
def condInit (ts : TextSource) : AcdAttr × AcdConcept → Condition :=
  fun _ => Condition.construct ts.subject

/-- Tracker add step of the condition engine. -/
def condAdd (ts : TextSource) (cfg : NlpConfig) (p : AcdAttr × AcdConcept)
    (r : Condition) (n : Nat) : Condition :=
  add_insight_to_condition ts r p.1 p.2 (insight_id_string n) cfg

/-- Correlated (attribute, concept) pairs of the condition derivation:
condition-relevant attributes that resolve to a concept, in order. -/
def condPairs (acd_output : AcdContainer) : List (AcdAttr × AcdConcept) :=
  (filter_attribute_values (acd_output.attribute_values.getD []) ANNOTATION_TYPE_CONDITION).filterMap
    (fun attr => (get_concept_for_attribute attr (acd_output.concepts.getD [])).map (fun c => (attr, c)))

theorem condLoop_eq_trackLoop (ts : TextSource) (cfg : NlpConfig) (concepts : List AcdConcept)
    (attrs : List AcdAttr) : ∀ (t : CondTracker),
    condLoop ts cfg concepts attrs t =
      trackLoop condKey (condInit ts) (condAdd ts cfg) cfg.insight_id_start
        (attrs.filterMap (fun a => (get_concept_for_attribute a concepts).map (fun c => (a, c)))) t := by
  induction attrs with
  | nil => intro t; rfl
  | cons a rest ih =>
    intro t
    simp only [condLoop, List.filterMap_cons]
    cases hfind : get_concept_for_attribute a concepts with
    | none => exact ih t
    | some c =>
      simp only [Option.map_some, trackLoop]
      exact ih _

/-- Number of insight extensions in a meta. -/
def metaInsightCount (meta : Option MetaR) : Nat := ((meta.getD ⟨none⟩).ext.getD []).length

/-- Insight id value carried by an insight extension (the identifier value of
its first child). -/
def extInsightId (e : Ext) : Option String :=
  match e.sub with
  | some (idext :: _) =>
    match idext.value with
    | .vIdentifier _ v => v
    | _ => none
  | _ => none

/-- Insight id values recorded in a meta, in order. -/
def metaInsightIds (meta : Option MetaR) : List String :=
  ((meta.getD ⟨none⟩).ext.getD []).filterMap extInsightId

theorem add_insight_to_meta_ext_count (meta : Option MetaR) (i d : Ext) :
    metaInsightCount (add_insight_to_meta_ext meta i d) = metaInsightCount meta + 1 := by
  cases meta with
  | none => simp [add_insight_to_meta_ext, metaInsightCount]
  | some m =>
    cases hm : m.ext with
    | none => simp [add_insight_to_meta_ext, metaInsightCount, hm]
    | some l => simp [add_insight_to_meta_ext, metaInsightCount, hm]

theorem add_insight_to_meta_ext_ids (meta : Option MetaR) (s sys : String) (d : Ext) :
    metaInsightIds (add_insight_to_meta_ext meta (create_insight_id_extension s sys) d) =
      metaInsightIds meta ++ [s] := by
  have hid : extInsightId (Ext.mk INSIGHT_URL ExtVal.noneV
      (some [create_insight_id_extension s sys, d])) = some s := rfl
  cases meta with
  | none => simp [add_insight_to_meta_ext, metaInsightIds, hid]
  | some m =>
    cases hm : m.ext with
    | none => simp [add_insight_to_meta_ext, metaInsightIds, hm, hid]
    | some l => simp [add_insight_to_meta_ext, metaInsightIds, hm, List.filterMap_append, hid]

theorem condAdd_count (ts : TextSource) (cfg : NlpConfig) (p : AcdAttr × AcdConcept)
    (r : Condition) (n : Nat) :
    metaInsightCount (condAdd ts cfg p r n).meta = metaInsightCount r.meta + 1 := by
  simp only [condAdd, add_insight_to_condition, add_insight_codings_to_condition]
  exact add_insight_to_meta_ext_count _ _ _

theorem condAdd_ids (ts : TextSource) (cfg : NlpConfig) (p : AcdAttr × AcdConcept)
    (r : Condition) (n : Nat) :
    metaInsightIds (condAdd ts cfg p r n).meta = metaInsightIds r.meta ++ [insight_id_string n] := by
  simp only [condAdd, add_insight_to_condition, add_insight_codings_to_condition]
  exact add_insight_to_meta_ext_ids _ _ _ _

theorem truthyList_false_getD {β : Type} (x : Option (List β)) (h : truthyList x = false) :
    x.getD [] = [] := by
  cases x with
  | none => rfl
  | some l =>
    cases l with
    | nil => rfl
    | cons a rest => simp [truthyList] at h

theorem condPairs_empty_of_guard_false (out : AcdContainer)
    (h : (truthyList out.attribute_values && truthyList out.concepts) = false) :
    condPairs out = [] := by
  rcases Bool.and_eq_false_iff.1 h with h1 | h1
  · simp [condPairs, truthyList_false_getD _ h1, filter_attribute_values]
  · have : out.concepts.getD [] = [] := truthyList_false_getD _ h1
    simp only [condPairs, this]
    apply List.eq_nil_iff_forall_not_mem.2
    intro p hp
    rcases List.mem_filterMap.1 hp with ⟨a, _, ha⟩
    simp [get_concept_for_attribute] at ha

/-- The condition derivation equals the group-by normal form of its tracker
loop: `none` exactly when no attribute correlated, otherwise one finalised
condition per distinct first-seen CUI. -/
theorem create_conditions_eq (ts : TextSource) (out : AcdContainer) (cfg : NlpConfig) :
    create_conditions_from_insights ts out cfg =
      (if (condPairs out).isEmpty then none
       else some ((trackNew condKey (condInit ts) (condAdd ts cfg) cfg.insight_id_start
         [] (condPairs out)).map (fun e => finalizeCondition e.2.1))) := by
  unfold create_conditions_from_insights
  cases hg : (truthyList out.attribute_values && truthyList out.concepts) with
  | false =>
    rw [condPairs_empty_of_guard_false out hg]
    simp
  | true =>
    simp only [if_true]
    rw [condLoop_eq_trackLoop, trackLoop_nil_eq]
    have hpairs : (filter_attribute_values (out.attribute_values.getD []) ANNOTATION_TYPE_CONDITION).filterMap
        (fun a => (get_concept_for_attribute a (out.concepts.getD [])).map (fun c => (a, c))) =
        condPairs out := rfl
    rw [hpairs]
    cases hp : condPairs out with
    | nil => simp [trackNew]
    | cons p rest =>
      have hne : trackNew condKey (condInit ts) (condAdd ts cfg) cfg.insight_id_start [] (p :: rest) =
          (condKey p, addAllP (condAdd ts cfg) (rest.filter (fun b => condKey b == condKey p))
            (condAdd ts cfg p (condInit ts p) cfg.insight_id_start) (cfg.insight_id_start + 1)) ::
            trackNew condKey (condInit ts) (condAdd ts cfg) cfg.insight_id_start [condKey p] rest := by
        simp only [trackNew]
        rw [if_neg (List.not_mem_nil _)]
      rw [hne]
      simp

/-!
Instantiation of the tracker characterisation for the medication engine.
The loop raises on a correlation miss and on malformed administration data,
so the characterisation holds under hypotheses excluding those raises.
-/

/-- Benign administration data: the first administration entry exists (when
the attribute is present) and its dosage amount, when present, parses. -/
def medAdminOk (m : MedAnnot) : Bool :=
  match m.administration with
  | none => true
  | some [] => false
  | some (admin :: _) =>
    match admin.dosageValue with
    | none => true
    | some d =>
      if pyContainsSpace d then (pyFloat (pyStripCommas ((pySplitSpace d).headD ""))).isSome
      else (pyFloat (pyStripCommas d)).isSome

theorem build_dosage_ok (admin : AdminEntry) (d : String)
    (h : (if pyContainsSpace d then (pyFloat (pyStripCommas ((pySplitSpace d).headD ""))).isSome
          else (pyFloat (pyStripCommas d)).isSome) = true) :
    ∃ v, build_dosage admin d = .ok v := by
  unfold build_dosage
  cases hc : pyContainsSpace d with
  | true =>
    rw [hc] at h
    simp only [if_true] at h
    obtain ⟨q, hq⟩ := Option.isSome_iff_exists.1 h
    simp only [hc, if_true, parse_dose_amount, hq]
    exact ⟨_, rfl⟩
  | false =>
    rw [hc] at h
    simp only [Bool.false_eq_true, if_false] at h
    obtain ⟨q, hq⟩ := Option.isSome_iff_exists.1 h
    simp only [hc, Bool.false_eq_true, if_false, parse_dose_amount, hq]
    exact ⟨_, rfl⟩

/-- Proof-side abbreviation: the medication statement after the drug-coding
merge step of `update_codings_and_administration_info`. -/
def medWithCodings (r : MedStatement) (m : MedAnnot) : MedStatement :=
  { r with medicationCodeableConcept :=
      add_codings_drug ( get_drug_from_annotation m) r.medicationCodeableConcept }

/-- Proof-side abbreviation: a medication statement with one more dosage. -/
def medWithDosage (r : MedStatement) (d : Dosage) : MedStatement :=
  { r with dosage := some (r.dosage.getD [] ++ [d]) }

theorem update_codings_ok (r : MedStatement) (m : MedAnnot) (h : medAdminOk m = true) :
    ∃ v, update_codings_and_administration_info r m = .ok v ∧ v.meta = r.meta := by
  unfold medAdminOk at h
  cases hadm : m.administration with
  | none =>
    refine ⟨medWithCodings r m, ?_, rfl⟩
    unfold update_codings_and_administration_info
    rw [hadm]
    rfl
  | some admins =>
    rw [hadm] at h
    cases admins with
    | nil => simp at h
    | cons admin rest =>
      have hred : update_codings_and_administration_info r m =
          (match admin.dosageValue with
           | none => .ok (medWithCodings r m)
           | some dose_with_units =>
             match build_dosage admin dose_with_units with
             | .error e => .error e
             | .ok dose => .ok (medWithDosage (medWithCodings r m) dose)) := by
        unfold update_codings_and_administration_info
        rw [hadm]
        rfl
      rw [hred]
      have h2 : (match admin.dosageValue with
        | none => true
        | some d =>
          if pyContainsSpace d then (pyFloat (pyStripCommas ((pySplitSpace d).headD ""))).isSome
          else (pyFloat (pyStripCommas d)).isSome) = true := h
      cases hdv : admin.dosageValue with
      | none => exact ⟨medWithCodings r m, rfl, rfl⟩
      | some d =>
        rw [hdv] at h2
        have h3 : (if pyContainsSpace d then (pyFloat (pyStripCommas ((pySplitSpace d).headD ""))).isSome
            else (pyFloat (pyStripCommas d)).isSome) = true := h2
        obtain ⟨v, hv⟩ := build_dosage_ok admin d h3
        refine ⟨medWithDosage (medWithCodings r m) v, ?_, rfl⟩
        show (match build_dosage admin d with
          | Except.error e => Except.error e
          | Except.ok dose => Except.ok (medWithDosage (medWithCodings r m) dose)) =
            Except.ok (medWithDosage (medWithCodings r m) v)
        rw [hv]

/-- CUI key of a correlated (attribute, medication annotation) pair. -/
def medKey (p : AcdAttr × MedAnnot) : Option String := p.2.cui

/-- Tracker initialiser of the medication engine. -/
def medInit (ts : TextSource) : AcdAttr × MedAnnot → MedStatement :=
  fun p => create_minimum_medication_statement ts.subject p.2

/-- Total proof-side view of the medication add step: equal to the value the
`Except`-returning source step succeeds with (hypotheses of every lemma using
it rule the failing branch out). -/
def medAddTotal (ts : TextSource) (cfg : NlpConfig) (p : AcdAttr × MedAnnot)
    (r : MedStatement) (n : Nat) : MedStatement :=
  match add_insight_to_medication_statement ts r p.1 p.2 (insight_id_string n) cfg with
  | .ok v => v
  | .error _ => r

/-- Proof-side abbreviation: the meta of a medication statement after one
insight was attached for the given attribute and id counter. -/
def medInsightMeta (ts : TextSource) (cfg : NlpConfig) (attr : AcdAttr) (n : Nat)
    (meta : Option MetaR) : Option MetaR :=
  add_insight_to_meta_ext meta
    (create_insight_id_extension (insight_id_string n) cfg.nlp_system)
    (create_derived_from_unstructured_insight_detail_extension
      ts.resource_type ts.resource_id
      ⟨attr.spanBegin, attr.spanEnd, attr.covered_text⟩
      (match attr.insight_model_data with
       | some imd => get_medication_confidences imd
       | none => none)
      (cfg.create_nlp_output_extension.map (fun e => [e])))

/-- Proof-side abbreviation: a medication statement with its meta replaced. -/
def medSetMeta (r : MedStatement) (meta : Option MetaR) : MedStatement :=
  { r with meta := meta }

theorem medAdd_ok (ts : TextSource) (cfg : NlpConfig) (p : AcdAttr × MedAnnot)
    (r : MedStatement) (n : Nat) (h : medAdminOk p.2 = true) :
    add_insight_to_medication_statement ts r p.1 p.2 (insight_id_string n) cfg =
      .ok (medAddTotal ts cfg p r n) ∧
    (medAddTotal ts cfg p r n).meta = medInsightMeta ts cfg p.1 n r.meta := by
  obtain ⟨v, hv, hmeta⟩ :=
    update_codings_ok (medSetMeta r (medInsightMeta ts cfg p.1 n r.meta)) p.2 h
  have hcall : add_insight_to_medication_statement ts r p.1 p.2 (insight_id_string n) cfg = .ok v := by
    show update_codings_and_administration_info (medSetMeta r (medInsightMeta ts cfg p.1 n r.meta)) p.2 = .ok v
    exact hv
  refine ⟨?_, ?_⟩
  · rw [hcall]
    unfold medAddTotal
    rw [hcall]
  · unfold medAddTotal
    rw [hcall]
    exact hmeta

theorem medAddTotal_count (ts : TextSource) (cfg : NlpConfig) (p : AcdAttr × MedAnnot)
    (r : MedStatement) (n : Nat) (h : medAdminOk p.2 = true) :
    metaInsightCount (medAddTotal ts cfg p r n).meta = metaInsightCount r.meta + 1 := by
  rw [(medAdd_ok ts cfg p r n h).2]
  unfold medInsightMeta
  exact add_insight_to_meta_ext_count _ _ _

theorem medAddTotal_ids (ts : TextSource) (cfg : NlpConfig) (p : AcdAttr × MedAnnot)
    (r : MedStatement) (n : Nat) (h : medAdminOk p.2 = true) :
    metaInsightIds (medAddTotal ts cfg p r n).meta =
      metaInsightIds r.meta ++ [insight_id_string n] := by
  rw [(medAdd_ok ts cfg p r n h).2]
  unfold medInsightMeta
  exact add_insight_to_meta_ext_ids _ _ _ _

/-- Medication-relevant attributes of a container. -/
def medFiltered (out : AcdContainer) : List AcdAttr :=
  filter_attribute_values (out.attribute_values.getD []) ANNOTATION_TYPE_MEDICATION

/-- Correlated (attribute, medication annotation) pairs. -/
def medPairs (out : AcdContainer) : List (AcdAttr × MedAnnot) :=
  (medFiltered out).filterMap
    (fun attr => (get_annotation_for_attribute attr (out.medication_ind.getD [])).map (fun m => (attr, m)))

theorem medLoop_eq_trackLoop (ts : TextSource) (cfg : NlpConfig) (meds : List MedAnnot)
    (attrs : List AcdAttr)
    (hall : ∀ a ∈ attrs, (get_annotation_for_attribute a meds).isSome)
    (hok : ∀ m ∈ meds, medAdminOk m = true) : ∀ (t : MedTracker),
    medLoop ts cfg meds attrs t =
      .ok (trackLoop medKey (medInit ts) (medAddTotal ts cfg) cfg.insight_id_start
        (attrs.filterMap (fun a => (get_annotation_for_attribute a meds).map (fun m => (a, m)))) t) := by
  induction attrs with
  | nil => intro t; rfl
  | cons a rest ih =>
    intro t
    obtain ⟨m, hm⟩ := Option.isSome_iff_exists.1 (hall a (List.mem_cons_self _ _))
    have hmem : m ∈ meds := List.mem_of_find?_eq_some hm
    simp only [medLoop, List.filterMap_cons, hm, Option.map_some, trackLoop]
    rw [(medAdd_ok ts cfg (a, m) _ _ (hok m hmem)).1]
    exact ih (fun b hb => hall b (List.mem_cons_of_mem _ hb)) _

theorem medPairs_empty_of_guard_false (out : AcdContainer)
    (h : (truthyList out.attribute_values && truthyList out.medication_ind) = false) :
    medPairs out = [] := by
  rcases Bool.and_eq_false_iff.1 h with h1 | h1
  · simp [medPairs, medFiltered, truthyList_false_getD _ h1, filter_attribute_values]
  · have : out.medication_ind.getD [] = [] := truthyList_false_getD _ h1
    simp only [medPairs, this]
    apply List.eq_nil_iff_forall_not_mem.2
    intro p hp
    rcases List.mem_filterMap.1 hp with ⟨a, _, ha⟩
    simp [get_annotation_for_attribute] at ha

/-- The medication derivation, on inputs where every medication-relevant
attribute correlates and every annotation is benign, equals the group-by
normal form of its tracker loop. -/
theorem create_meds_eq (ts : TextSource) (out : AcdContainer) (cfg : NlpConfig)
    (hall : ∀ a ∈ medFiltered out,
      (get_annotation_for_attribute a (out.medication_ind.getD [])).isSome)
    (hok : ∀ m ∈ out.medication_ind.getD [], medAdminOk m = true) :
    create_med_statements_from_insights ts out cfg =
      .ok (if (medPairs out).isEmpty then none
       else some ((trackNew medKey (medInit ts) (medAddTotal ts cfg) cfg.insight_id_start
         [] (medPairs out)).map (fun e => finalizeMedStatement e.2.1))) := by
  unfold create_med_statements_from_insights
  cases hg : (truthyList out.attribute_values && truthyList out.medication_ind) with
  | false =>
    rw [medPairs_empty_of_guard_false out hg]
    simp
  | true =>
    simp only [if_true]
    rw [show (filter_attribute_values (out.attribute_values.getD []) ANNOTATION_TYPE_MEDICATION) = medFiltered out from rfl]
    rw [medLoop_eq_trackLoop ts cfg _ _ hall hok, trackLoop_nil_eq]
    rw [show (medFiltered out).filterMap
        (fun a => (get_annotation_for_attribute a (out.medication_ind.getD [])).map (fun m => (a, m))) = medPairs out from rfl]
    cases hp : medPairs out with
    | nil => simp [trackNew]
    | cons p rest =>
      have hne : trackNew medKey (medInit ts) (medAddTotal ts cfg) cfg.insight_id_start [] (p :: rest) =
          (medKey p, addAllP (medAddTotal ts cfg) (rest.filter (fun b => medKey b == medKey p))
            (medAddTotal ts cfg p (medInit ts p) cfg.insight_id_start) (cfg.insight_id_start + 1)) ::
            trackNew medKey (medInit ts) (medAddTotal ts cfg) cfg.insight_id_start [medKey p] rest := by
        simp only [trackNew]
        rw [if_neg (List.not_mem_nil _)]
      rw [hne]
      simp

theorem assocFind_of_mem_nodup {κ ν : Type} [BEq κ] [LawfulBEq κ] (t : List (κ × ν))
    (hnd : (t.map Prod.fst).Nodup) (k : κ) (v : ν) (hmem : (k, v) ∈ t) :
    assocFind t k = some v := by
  induction t with
  | nil => simp at hmem
  | cons e rest ih =>
    obtain ⟨k1, v1⟩ := e
    rcases List.mem_cons.1 hmem with heq | hmem'
    · obtain ⟨hk, hv⟩ := Prod.mk.injEq .. ▸ heq
      simp [assocFind, hk.symm, hv]
    · have hk1 : k1 ∉ rest.map Prod.fst := by
        have h2 := hnd
        simp only [List.map_cons] at h2
        exact (List.nodup_cons.1 h2).1
      have hkne : (k1 == k) = false := by
        cases hc : (k1 == k) with
        | true =>
          exfalso
          exact hk1 (eq_of_beq hc ▸ List.mem_map.2 ⟨(k, v), hmem', rfl⟩)
        | false => rfl
      simp only [assocFind, hkne, Bool.false_eq_true, if_false]
      refine ih ?_ hmem'
      have h2 := hnd
      simp only [List.map_cons] at h2
      exact (List.nodup_cons.1 h2).2

theorem finalizeCondition_meta (c : Condition) : (finalizeCondition c).meta = c.meta := rfl

theorem finalizeMedStatement_meta (m : MedStatement) : (finalizeMedStatement m).meta = m.meta := rfl

/-- Claim C1: over an NLP response whose relevant attributes correlate to
exactly two distinct CUIs, each derivation engine returns exactly two
resources in first-seen-CUI order, each carrying one meta insight extension
per attribute correlated to its CUI; with zero correlated CUIs the call
returns the not-found signal instead of an empty list.  The medication
conjuncts assume every medication-relevant attribute correlates and the
annotations are benign, since that engine raises on a correlation miss
(settled separately by claim C3). -/
theorem claim_C1 (ts : TextSource) (out : AcdContainer) (cfg : NlpConfig) :
    (∀ k1 k2, firstSeen ((condPairs out).map condKey) = [k1, k2] →
      ∃ r1 r2, create_conditions_from_insights ts out cfg = some [r1, r2] ∧
        metaInsightCount r1.meta = ((condPairs out).filter (fun p => condKey p == k1)).length ∧
        metaInsightCount r2.meta = ((condPairs out).filter (fun p => condKey p == k2)).length) ∧
    (condPairs out = [] → create_conditions_from_insights ts out cfg = none) ∧
    ((∀ a ∈ medFiltered out, (get_annotation_for_attribute a (out.medication_ind.getD [])).isSome) →
     (∀ m ∈ out.medication_ind.getD [], medAdminOk m = true) →
      (∀ k1 k2, firstSeen ((medPairs out).map medKey) = [k1, k2] →
        ∃ m1 m2, create_med_statements_from_insights ts out cfg = .ok (some [m1, m2]) ∧
          metaInsightCount m1.meta = ((medPairs out).filter (fun p => medKey p == k1)).length ∧
          metaInsightCount m2.meta = ((medPairs out).filter (fun p => medKey p == k2)).length) ∧
      (medPairs out = [] → create_med_statements_from_insights ts out cfg = .ok none)) := by
  refine ⟨?_, ?_, ?_⟩
  · intro k1 k2 h
    have hne : (condPairs out).isEmpty = false := by
      cases hp : condPairs out with
      | nil => rw [hp] at h; simp [firstSeen, firstSeenFrom] at h
      | cons p r => rfl
    have htracker : (trackNew condKey (condInit ts) (condAdd ts cfg) cfg.insight_id_start
        [] (condPairs out)).map Prod.fst = [k1, k2] := by
      rw [trackNew_map_fst]
      exact h
    obtain ⟨e1, e2, htr⟩ := map_fst_eq_pair htracker
    have hk12 : k1 ≠ k2 := by
      have hnd : ([k1, k2] : List (Option String)).Nodup := by
        rw [← h]
        exact firstSeenFrom_nodup _ _
      simp only [List.nodup_cons, List.mem_singleton] at hnd
      exact hnd.1
    refine ⟨finalizeCondition e1.1, finalizeCondition e2.1, ?_, ?_, ?_⟩
    · rw [create_conditions_eq, if_neg (by rw [hne]; exact Bool.false_ne_true), htr]
      rfl
    · have hfind : assocFind (trackNew condKey (condInit ts) (condAdd ts cfg) cfg.insight_id_start
          [] (condPairs out)) k1 = some e1 := by
        rw [htr]
        simp [assocFind]
      have := (trackNew_entry_props condKey (condInit ts) (condAdd ts cfg) cfg.insight_id_start
        (fun c => metaInsightCount c.meta) (fun c => metaInsightIds c.meta)
        (condPairs out) k1 e1
        (fun p _ r n => condAdd_count ts cfg p r n)
        (fun p _ r n => condAdd_ids ts cfg p r n)
        (fun p => rfl) (fun p => rfl) hfind).1
      rw [finalizeCondition_meta]
      exact this
    · have hfind : assocFind (trackNew condKey (condInit ts) (condAdd ts cfg) cfg.insight_id_start
          [] (condPairs out)) k2 = some e2 := by
        rw [htr]
        have hbne : (k1 == k2) = false := by
          cases hc : (k1 == k2) with
          | true => exact absurd (eq_of_beq hc) hk12
          | false => rfl
        simp [assocFind, hbne]
      have := (trackNew_entry_props condKey (condInit ts) (condAdd ts cfg) cfg.insight_id_start
        (fun c => metaInsightCount c.meta) (fun c => metaInsightIds c.meta)
        (condPairs out) k2 e2
        (fun p _ r n => condAdd_count ts cfg p r n)
        (fun p _ r n => condAdd_ids ts cfg p r n)
        (fun p => rfl) (fun p => rfl) hfind).1
      rw [finalizeCondition_meta]
      exact this
  · intro h
    rw [create_conditions_eq, h]
    rfl
  · intro hall hok
    refine ⟨?_, ?_⟩
    · intro k1 k2 h
      have htracker : (trackNew medKey (medInit ts) (medAddTotal ts cfg) cfg.insight_id_start
          [] (medPairs out)).map Prod.fst = [k1, k2] := by
        rw [trackNew_map_fst]
        exact h
      obtain ⟨e1, e2, htr⟩ := map_fst_eq_pair htracker
      have hk12 : k1 ≠ k2 := by
        have hnd : ([k1, k2] : List (Option String)).Nodup := by
          rw [← h]
          exact firstSeenFrom_nodup _ _
        simp only [List.nodup_cons, List.mem_singleton] at hnd
        exact hnd.1
      have hne : (medPairs out).isEmpty = false := by
        cases hp : medPairs out with
        | nil => rw [hp] at h; simp [firstSeen, firstSeenFrom] at h
        | cons p r => rfl
      have hpairok : ∀ p ∈ medPairs out, medAdminOk p.2 = true := by
        intro p hp
        rcases List.mem_filterMap.1 hp with ⟨a, _, ha⟩
        cases hfa : get_annotation_for_attribute a (out.medication_ind.getD []) with
        | none => rw [hfa] at ha; simp at ha
        | some m =>
          rw [hfa] at ha
          have hm : m ∈ out.medication_ind.getD [] := List.mem_of_find?_eq_some hfa
          have hpm : (a, m) = p := Option.some.inj ha
          rw [← hpm]
          exact hok m hm
      refine ⟨finalizeMedStatement e1.1, finalizeMedStatement e2.1, ?_, ?_, ?_⟩
      · rw [create_meds_eq ts out cfg hall hok, if_neg (by rw [hne]; exact Bool.false_ne_true), htr]
        rfl
      · have hfind : assocFind (trackNew medKey (medInit ts) (medAddTotal ts cfg) cfg.insight_id_start
            [] (medPairs out)) k1 = some e1 := by
          rw [htr]
          simp [assocFind]
        have := (trackNew_entry_props medKey (medInit ts) (medAddTotal ts cfg) cfg.insight_id_start
          (fun c => metaInsightCount c.meta) (fun c => metaInsightIds c.meta)
          (medPairs out) k1 e1
          (fun p hp r n => medAddTotal_count ts cfg p r n (hpairok p hp))
          (fun p hp r n => medAddTotal_ids ts cfg p r n (hpairok p hp))
          (fun p => rfl) (fun p => rfl) hfind).1
        rw [finalizeMedStatement_meta]
        exact this
      · have hfind : assocFind (trackNew medKey (medInit ts) (medAddTotal ts cfg) cfg.insight_id_start
            [] (medPairs out)) k2 = some e2 := by
          rw [htr]
          have hbne : (k1 == k2) = false := by
            cases hc : (k1 == k2) with
            | true => exact absurd (eq_of_beq hc) hk12
            | false => rfl
          simp [assocFind, hbne]
        have := (trackNew_entry_props medKey (medInit ts) (medAddTotal ts cfg) cfg.insight_id_start
          (fun c => metaInsightCount c.meta) (fun c => metaInsightIds c.meta)
          (medPairs out) k2 e2
          (fun p hp r n => medAddTotal_count ts cfg p r n (hpairok p hp))
          (fun p hp r n => medAddTotal_ids ts cfg p r n (hpairok p hp))
          (fun p => rfl) (fun p => rfl) hfind).1
        rw [finalizeMedStatement_meta]
        exact this
    · intro h
      rw [create_meds_eq ts out cfg hall hok, h]
      rfl

/-- Concrete text source used by the witnesses. -/
def wTs : TextSource := ⟨"DiagnosticReport", some "12345", some "Patient/1"⟩

/-- Concrete condition attribute with a given referenced uid. -/
def wCondAttr (u : Nat) : AcdAttr := ⟨"CDP-Condition", u, 0, 5, "aaaaa", none⟩

/-- Concrete medication attribute with a given referenced uid. -/
def wMedAttr (u : Nat) : AcdAttr := ⟨"CDP-Medication", u, 0, 5, "aaaaa", none⟩

/-- Concrete concept with a given uid and CUI. -/
def wConcept (u : Nat) (cui : String) : AcdConcept :=
  ⟨u, some cui, some "nm", none, none, none, none, none, none, none⟩

/-- Concrete medication annotation with a given uid and CUI. -/
def wMedAnnot (u : Nat) (cui : String) : MedAnnot :=
  ⟨u, some cui, some [⟨some [⟨some cui, some "Metformin", none⟩]⟩], none⟩

/-- Concrete container: three condition attributes over two CUIs and three
medication attributes over two CUIs. -/
def wOut : AcdContainer :=
  ⟨some [wCondAttr 1, wCondAttr 2, wCondAttr 3, wMedAttr 4, wMedAttr 5, wMedAttr 6],
   some [wConcept 1 "C1", wConcept 2 "C2", wConcept 3 "C1"],
   some [wMedAnnot 4 "M1", wMedAnnot 5 "M2", wMedAnnot 6 "M1"]⟩

/-- Witness for claim C1: two distinct CUIs on each engine, with insight
counts 2 and 1 matching the attribute counts per CUI. -/
theorem claim_C1_witness :
    (∃ r1 r2, create_conditions_from_insights wTs wOut ACD_NLP_CONFIG = some [r1, r2] ∧
      metaInsightCount r1.meta = 2 ∧ metaInsightCount r2.meta = 1) ∧
    (∃ m1 m2, create_med_statements_from_insights wTs wOut ACD_NLP_CONFIG = .ok (some [m1, m2]) ∧
      metaInsightCount m1.meta = 2 ∧ metaInsightCount m2.meta = 1) := by
  obtain ⟨hc, _, hm⟩ := claim_C1 wTs wOut ACD_NLP_CONFIG
  constructor
  · obtain ⟨r1, r2, h1, h2, h3⟩ := hc (some "C1") (some "C2") (by decide)
    exact ⟨r1, r2, h1, h2.trans (by decide), h3.trans (by decide)⟩
  · obtain ⟨hm2, _⟩ := hm (by decide) (by decide)
    obtain ⟨m1, m2, h1, h2, h3⟩ := hm2 (some "M1") (some "M2") (by decide)
    exact ⟨m1, m2, h1, h2.trans (by decide), h3.trans (by decide)⟩

/-- Claim C7: within one condition derivation call, the insight sequence ids
attached to each derived resource are exactly
`insight-start, insight-(start+1), ...` — one per attribute processed for
that resource's CUI group, starting at the configured origin, with no value
reused and no gaps, each group's counter restarting at the origin. -/
theorem claim_C7 (ts : TextSource) (out : AcdContainer) (cfg : NlpConfig) (l : List Condition)
    (h : create_conditions_from_insights ts out cfg = some l) :
    ∀ r ∈ l, metaInsightIds r.meta =
      (List.range (metaInsightCount r.meta)).map (fun j => insight_id_string (cfg.insight_id_start + j)) := by
  rw [create_conditions_eq] at h
  cases hp : (condPairs out).isEmpty with
  | true => rw [hp] at h; simp at h
  | false =>
    rw [hp] at h
    simp only [Bool.false_eq_true, if_false] at h
    have hl : l = (trackNew condKey (condInit ts) (condAdd ts cfg) cfg.insight_id_start
        [] (condPairs out)).map (fun e => finalizeCondition e.2.1) := (Option.some.inj h).symm
    intro r hr
    rw [hl] at hr
    rcases List.mem_map.1 hr with ⟨e, he, rfl⟩
    have hnd : ((trackNew condKey (condInit ts) (condAdd ts cfg) cfg.insight_id_start
        [] (condPairs out)).map Prod.fst).Nodup := by
      rw [trackNew_map_fst]
      exact firstSeenFrom_nodup _ _
    have hfind : assocFind (trackNew condKey (condInit ts) (condAdd ts cfg) cfg.insight_id_start
        [] (condPairs out)) e.1 = some e.2 :=
      assocFind_of_mem_nodup _ hnd e.1 e.2 he
    obtain ⟨hmc, hids, _⟩ := trackNew_entry_props condKey (condInit ts) (condAdd ts cfg)
      cfg.insight_id_start
      (fun c => metaInsightCount c.meta) (fun c => metaInsightIds c.meta)
      (condPairs out) e.1 e.2
      (fun p _ r n => condAdd_count ts cfg p r n)
      (fun p _ r n => condAdd_ids ts cfg p r n)
      (fun p => rfl) (fun p => rfl) hfind
    rw [finalizeCondition_meta, hids, hmc]

/-- Witness for claim C7: the two derived conditions carry ids insight-1,
insight-2 and insight-1 respectively. -/
theorem claim_C7_witness :
    ∃ l, create_conditions_from_insights wTs wOut ACD_NLP_CONFIG = some l ∧
      l.map (fun r => metaInsightIds r.meta) =
      l.map (fun r => (List.range (metaInsightCount r.meta)).map
        (fun j => insight_id_string (1 + j))) := by
  refine ⟨(create_conditions_from_insights wTs wOut ACD_NLP_CONFIG).getD [], rfl, ?_⟩
  exact List.map_congr_left (claim_C7 wTs wOut ACD_NLP_CONFIG _ rfl)

/-- Condition attribute referencing a uid with no matching concept. -/
def c3MissAttr : AcdAttr := ⟨"CDP-Condition", 9, 0, 5, "aaaaa", none⟩

/-- Medication attribute referencing a uid with no matching annotation. -/
def c3MissMedAttr : AcdAttr := ⟨"CDP-Medication", 9, 0, 5, "aaaaa", none⟩

/-- Container with one correlation miss per engine alongside one well-formed
attribute per engine. -/
def c3Out : AcdContainer :=
  ⟨some [c3MissAttr, wCondAttr 1, c3MissMedAttr, wMedAttr 4],
   some [wConcept 1 "C1"],
   some [wMedAnnot 4 "M1"]⟩

/-- Claim C3 at the failing input: both correlators signal a miss with
`none` rather than an exception, and the condition engine recovers by
skipping the attribute (one resource from the remaining data) — but the
medication engine dereferences the miss (`medInd.cui` on `None`) and raises
`AttributeError`, aborting the batch, contradicting the claim. -/
theorem claim_C3 :
    get_concept_for_attribute c3MissAttr [wConcept 1 "C1"] = none ∧
    get_annotation_for_attribute c3MissMedAttr [wMedAnnot 4 "M1"] = none ∧
    (create_conditions_from_insights wTs c3Out ACD_NLP_CONFIG).map List.length = some 1 ∧
    create_med_statements_from_insights wTs c3Out ACD_NLP_CONFIG = .error .attributeError :=
  ⟨rfl, rfl, rfl, rfl⟩

/-- A codeable concept holding only a plain (untagged) coding for (s, c). -/
def c2PlainCC : CC := CC.mk none (some [Cdg.mk (some "s") (some "c") none none])

/-- A codeable concept holding only an NLP-derived-tagged coding for (s, c). -/
def c2DerivedCC : CC := CC.mk none (some [create_coding "s" "c" none true])

/-- Claim C2 at the failing input: the derived append on a concept whose only
matching coding is already tagged leaves the list unchanged, and a plain
append over an existing derived entry adds no duplicate — but the derived
append on a concept holding only a plain duplicate raises `AttributeError`
(`get_derived_by_nlp_extension` dereferences a `None` category-extension
lookup) instead of appending a tagged coding as the claim and the function's
own docstring state. -/
theorem claim_C2 :
    append_derived_by_nlp_coding c2PlainCC "s" "c" none = .error .attributeError ∧
    append_derived_by_nlp_coding c2DerivedCC "s" "c" none = .ok c2DerivedCC ∧
    append_coding c2DerivedCC "s" "c" none = c2DerivedCC :=
  ⟨rfl, rfl, rfl⟩

/-- Medication annotation whose administration carries the given dosage
string and no frequency. -/
def c5Annot (d : String) : MedAnnot :=
  ⟨4, some "M1", some [⟨some [⟨some "M1", some "Metformin", none⟩]⟩], some [⟨some d, none⟩]⟩

/-- Claim C5 at the failing input: the dosage strings of the claim parse to
amount 1000 with unit mg and amount 500 with no unit, but the non-numeric
input abc propagates a `ValueError` out of the medication update — the
source's handler catches only `OverflowError`, which `float` applied to a
string never raises, so the failure is not logged-and-skipped as the claim
states. -/
theorem claim_C5 :
    build_dosage ⟨some "1,000 mg", none⟩ "1,000 mg" =
      .ok { doseAndRate := some [{ doseQuantity := some { value := 1000, unit := some "mg" } }],
            timing := none } ∧
    build_dosage ⟨some "500", none⟩ "500" =
      .ok { doseAndRate := some [{ doseQuantity := some { value := 500, unit := none } }],
            timing := none } ∧
    update_codings_and_administration_info
      (create_minimum_medication_statement wTs.subject (c5Annot "abc")) (c5Annot "abc") =
      .error .valueError :=
  ⟨rfl, rfl, rfl⟩

/-- Counterexample for claim C6: with dosage 500 and the out-of-vocabulary
frequency twice daily, the built dosage has no timing element at all — the
raw frequency text is preserved nowhere on the dosage, contrary to the
claim. -/
theorem claim_C6_counterexample :
    ∃ dose, build_dosage ⟨some "500", some "twice daily"⟩ "500" = .ok dose ∧
      dose.timing = none ∧
      dose.doseAndRate = some [{ doseQuantity := some { value := 500, unit := none } }] :=
  ⟨_, rfl, rfl, rfl⟩

/-- Claim C6 as amended: for a processed dosage with a parsable spaceless
amount, the vocabulary frequencies yield a timing element with code AM or PM
and the raw frequency as the timing text; any other frequency yields no
timing element at all, so the raw frequency text is not preserved on the
dosage. -/
theorem claim_C6 (admin : AdminEntry) (d freq : String) (q : ℚ)
    (hfreq : admin.frequencyValue = some freq)
    (hnospace : pyContainsSpace d = false)
    (hparse : pyFloat (pyStripCommas d) = some q) :
    (freq = "Q AM" ∨ freq = "Q AM." ∨ freq = "AM" →
      ∃ dose, build_dosage admin d = .ok dose ∧
        dose.timing = some ⟨some (CC.mk (some freq)
          (some [create_coding TIMING_URL "AM" (some "AM") false]))⟩) ∧
    (freq = "Q PM" ∨ freq = "Q PM." ∨ freq = "PM" →
      ∃ dose, build_dosage admin d = .ok dose ∧
        dose.timing = some ⟨some (CC.mk (some freq)
          (some [create_coding TIMING_URL "PM" (some "PM") false]))⟩) ∧
    (¬(freq = "Q AM" ∨ freq = "Q AM." ∨ freq = "AM") →
     ¬(freq = "Q PM" ∨ freq = "Q PM." ∨ freq = "PM") →
      ∃ dose, build_dosage admin d = .ok dose ∧ dose.timing = none) := by
  have hred : build_dosage admin d = .ok
      { doseAndRate := some [⟨some ⟨q, none⟩⟩],
        timing :=
          if freq = "Q AM" ∨ freq = "Q AM." ∨ freq = "AM" then
            some ⟨some (CC.mk (some freq) (some [create_coding TIMING_URL "AM" (some "AM") false]))⟩
          else if freq = "Q PM" ∨ freq = "Q PM." ∨ freq = "PM" then
            some ⟨some (CC.mk (some freq) (some [create_coding TIMING_URL "PM" (some "PM") false]))⟩
          else none } := by
    unfold build_dosage
    rw [hnospace]
    simp only [Bool.false_eq_true, if_false, parse_dose_amount, hparse, hfreq]
  refine ⟨?_, ?_, ?_⟩
  · intro h
    refine ⟨_, hred, ?_⟩
    show (if freq = "Q AM" ∨ freq = "Q AM." ∨ freq = "AM" then
        some (⟨some (CC.mk (some freq) (some [create_coding TIMING_URL "AM" (some "AM") false]))⟩ : TimingR)
      else if freq = "Q PM" ∨ freq = "Q PM." ∨ freq = "PM" then
        some ⟨some (CC.mk (some freq) (some [create_coding TIMING_URL "PM" (some "PM") false]))⟩
      else none) = _
    rw [if_pos h]
  · intro h
    have hnotAM : ¬(freq = "Q AM" ∨ freq = "Q AM." ∨ freq = "AM") := by
      rcases h with rfl | rfl | rfl <;> simp
    refine ⟨_, hred, ?_⟩
    show (if freq = "Q AM" ∨ freq = "Q AM." ∨ freq = "AM" then
        some (⟨some (CC.mk (some freq) (some [create_coding TIMING_URL "AM" (some "AM") false]))⟩ : TimingR)
      else if freq = "Q PM" ∨ freq = "Q PM." ∨ freq = "PM" then
        some ⟨some (CC.mk (some freq) (some [create_coding TIMING_URL "PM" (some "PM") false]))⟩
      else none) = _
    rw [if_neg hnotAM, if_pos h]
  · intro h1 h2
    refine ⟨_, hred, ?_⟩
    show (if freq = "Q AM" ∨ freq = "Q AM." ∨ freq = "AM" then
        some (⟨some (CC.mk (some freq) (some [create_coding TIMING_URL "AM" (some "AM") false]))⟩ : TimingR)
      else if freq = "Q PM" ∨ freq = "Q PM." ∨ freq = "PM" then
        some ⟨some (CC.mk (some freq) (some [create_coding TIMING_URL "PM" (some "PM") false]))⟩
      else none) = _
    rw [if_neg h1, if_neg h2]

/-- Witness for claim C6: Q AM. yields code AM with text Q AM., Q PM yields
code PM, and BID yields no timing element. -/
theorem claim_C6_witness :
    (∃ dose, build_dosage ⟨some "500", some "Q AM."⟩ "500" = .ok dose ∧
      dose.timing = some ⟨some (CC.mk (some "Q AM.")
        (some [create_coding TIMING_URL "AM" (some "AM") false]))⟩) ∧
    (∃ dose, build_dosage ⟨some "500", some "Q PM"⟩ "500" = .ok dose ∧
      dose.timing = some ⟨some (CC.mk (some "Q PM")
        (some [create_coding TIMING_URL "PM" (some "PM") false]))⟩) ∧
    (∃ dose, build_dosage ⟨some "500", some "BID"⟩ "500" = .ok dose ∧ dose.timing = none) := by
  refine ⟨?_, ?_, ?_⟩
  · exact (claim_C6 ⟨some "500", some "Q AM."⟩ "500" "Q AM." 500 rfl rfl (by decide)).1
      (Or.inr (Or.inl rfl))
  · exact (claim_C6 ⟨some "500", some "Q PM"⟩ "500" "Q PM" 500 rfl rfl (by decide)).2.1
      (Or.inl rfl)
  · exact (claim_C6 ⟨some "500", some "BID"⟩ "500" "BID" 500 rfl rfl (by decide)).2.2
      (by decide) (by decide)

/-- Claim C10: the based-on reference string is resource_type/id when the
resource has an id and resource_type/_unknown_ when the id is absent, and
every unstructured insight detail extension contains that based-on
extension. -/
theorem claim_C10 (resource_type : String) (rid : Option String) (span : Span)
    (confidences nlp_extensions : Option (List Ext)) :
    (∀ s, rid = some s → s ≠ "" →
      create_reference_to_resource_extension resource_type rid =
        Ext.mk INSIGHT_BASED_ON_URL (ExtVal.vReference (some (resource_type ++ "/" ++ s))) none) ∧
    (rid = none →
      create_reference_to_resource_extension resource_type rid =
        Ext.mk INSIGHT_BASED_ON_URL (ExtVal.vReference (some (resource_type ++ "/" ++ "_unknown_"))) none) ∧
    create_reference_to_resource_extension resource_type rid ∈
      ((create_derived_from_unstructured_insight_detail_extension resource_type rid span
        confidences nlp_extensions).sub.getD []) := by
  refine ⟨?_, ?_, ?_⟩
  · rintro s rfl hs
    unfold create_reference_to_resource_extension
    simp [truthyStr, hs]
  · rintro rfl
    rfl
  · exact List.mem_append_right _ (List.mem_cons_self _ _)

/-- Witness for claim C10 at a concrete resource with and without an id. -/
theorem claim_C10_witness :
    create_reference_to_resource_extension "DiagnosticReport" (some "12345") =
      Ext.mk INSIGHT_BASED_ON_URL (ExtVal.vReference (some "DiagnosticReport/12345")) none ∧
    create_reference_to_resource_extension "DiagnosticReport" none =
      Ext.mk INSIGHT_BASED_ON_URL (ExtVal.vReference (some "DiagnosticReport/_unknown_")) none := by
  refine ⟨?_, ?_⟩
  · exact (claim_C10 "DiagnosticReport" (some "12345") ⟨0, 5, "x"⟩ none none).1 "12345" rfl
      (by decide)
  · exact (claim_C10 "DiagnosticReport" none ⟨0, 5, "x"⟩ none none).2.1 rfl

/-- Claim C8: the derivation pipeline is deterministic — two runs on equal
(source, NLP response, configuration) inputs produce equal outputs, insight
sequence numbers, coding order and bundle entry order included. -/
theorem claim_C8 (ts1 ts2 : TextSource) (out1 out2 : AcdContainer) (cfg1 cfg2 : NlpConfig)
    (h1 : ts1 = ts2) (h2 : out1 = out2) (h3 : cfg1 = cfg2) :
    create_new_resources_from_insights ts1 out1 cfg1 =
      create_new_resources_from_insights ts2 out2 cfg2 := by
  subst h1
  subst h2
  subst h3
  rfl

/-- Witness for claim C8: two runs at the concrete witness input agree. -/
theorem claim_C8_witness :
    create_new_resources_from_insights wTs wOut ACD_NLP_CONFIG =
      create_new_resources_from_insights wTs wOut ACD_NLP_CONFIG :=
  claim_C8 wTs wTs wOut wOut ACD_NLP_CONFIG ACD_NLP_CONFIG rfl rfl rfl

/-- The derivation pipeline with the source resource threaded as explicit
state.  Mutation in the Python source is embedded as functions returning
their updated targets; no function of the derivation path returns an updated
source (each only reads its type, id and subject), so the pipeline returns
the source exactly as received alongside the bundle. -/
def create_new_resources_with_source (ts : TextSource) (insights : AcdContainer) (cfg : NlpConfig) :
    Except PyErr (TextSource × Option (Bundle DerivedResource)) :=
  match create_new_resources_from_insights ts insights cfg with
  | .error e => .error e
  | .ok b => .ok (ts, b)

/-- Claim C9: the derivation path never mutates its input — the source
resource comes back from the threaded pipeline unchanged in every field,
with all derived content only on the freshly constructed resources in the
bundle. -/
theorem claim_C9 (ts : TextSource) (insights : AcdContainer) (cfg : NlpConfig)
    (res : TextSource × Option (Bundle DerivedResource))
    (h : create_new_resources_with_source ts insights cfg = .ok res) :
    res.1 = ts := by
  unfold create_new_resources_with_source at h
  cases hc : create_new_resources_from_insights ts insights cfg with
  | error e =>
    rw [hc] at h
    exact absurd h (by simp)
  | ok b =>
    rw [hc] at h
    rw [← Except.ok.inj h]

/-- Witness for claim C9 at the concrete witness input. -/
theorem claim_C9_witness :
    ∃ res, create_new_resources_with_source wTs wOut ACD_NLP_CONFIG = .ok res ∧ res.1 = wTs := by
  have h : create_new_resources_with_source wTs wOut ACD_NLP_CONFIG =
      .ok ((create_new_resources_with_source wTs wOut ACD_NLP_CONFIG).toOption.getD
        (wTs, none)) := rfl
  exact ⟨_, h, claim_C9 wTs wOut ACD_NLP_CONFIG _ h⟩

/-!
Coding-count accounting for the enrichment engine (claim C4): the returned
total equals the number of codings actually appended, one insight is attached
per occurrence with a positive append count, and a zero total yields no
bundle.
-/

/-- Number of codings held by a codeable concept. -/
def ccCount (cc : CC) : Nat := (cc.coding.getD []).length

/-- Total number of codings across the resource's codeable concepts. -/
def resourceCodingCount (res : EnrichResource) : Nat := (res.concepts.map ccCount).sum

theorem append_derived_counted_count (cc : CC) (s c : String) (d : Option String) :
    ccCount (append_derived_by_nlp_coding_counted cc s c d).1 =
      ccCount cc + (if (append_derived_by_nlp_coding_counted cc s c d).2 then 1 else 0) := by
  unfold append_derived_by_nlp_coding_counted
  dsimp only
  cases h : (find_codings (CC.mk cc.text (some (cc.coding.getD []))) s c).any isDerivedTagged with
  | true => simp [ccCount, CC.coding]
  | false => simp [ccCount, CC.coding, CC.text]

theorem appendDerivedCodes_count (sys : String) (l : List String) : ∀ (cc : CC) (n : Nat),
    ccCount (appendDerivedCodes sys l cc n).1 + n =
      ccCount cc + (appendDerivedCodes sys l cc n).2 := by
  induction l with
  | nil => intro cc n; simp [appendDerivedCodes]
  | cons x rest ih =>
    intro cc n
    simp only [appendDerivedCodes]
    have hstep := append_derived_counted_count cc sys x none
    have hrec := ih (append_derived_by_nlp_coding_counted cc sys x none).1
      (n + (if (append_derived_by_nlp_coding_counted cc sys x none).2 then 1 else 0))
    omega

theorem append_coding_entries_count (cc : CC) (sys csv : String) :
    ccCount (append_coding_entries_with_extension cc sys csv).1 =
      ccCount cc + (append_coding_entries_with_extension cc sys csv).2 := by
  unfold append_coding_entries_with_extension
  have := appendDerivedCodes_count sys (pySplitComma csv) cc 0
  omega

/-- One tracked enrichment step keeps the count accounting: the coding-count
increase equals the counter increase. -/
def StepOk (st st2 : CC × Nat) : Prop := ccCount st2.1 + st.2 = ccCount st.1 + st2.2

theorem StepOk.trans {a b c : CC × Nat} (h1 : StepOk a b) (h2 : StepOk b c) : StepOk a c := by
  unfold StepOk at *
  omega

theorem stepOk_refl (a : CC × Nat) : StepOk a a := rfl

theorem stepOk_cui (st : CC × Nat) (b : Bool) (code : String) (disp : Option String) :
    StepOk st (if b then
      (let r := append_derived_by_nlp_coding_counted st.1 UMLS_URL code disp
       (r.1, st.2 + (if r.2 then 1 else 0)))
    else st) := by
  cases b with
  | false => exact stepOk_refl st
  | true =>
    show StepOk st (let r := append_derived_by_nlp_coding_counted st.1 UMLS_URL code disp
       (r.1, st.2 + (if r.2 then 1 else 0)))
    unfold StepOk
    have := append_derived_counted_count st.1 UMLS_URL code disp
    dsimp only
    omega

theorem stepOk_field (st : CC × Nat) (b : Bool) (sys csv : String) :
    StepOk st (if b then
      (let r := append_coding_entries_with_extension st.1 sys csv
       (r.1, st.2 + r.2))
    else st) := by
  cases b with
  | false => exact stepOk_refl st
  | true =>
    show StepOk st (let r := append_coding_entries_with_extension st.1 sys csv
       (r.1, st.2 + r.2))
    unfold StepOk
    have := append_coding_entries_count st.1 sys csv
    dsimp only
    omega

theorem append_codings_stepOk (c : AcdConcept) (cc : CC) :
    StepOk (cc, 0) (append_codings_with_nlp_derived_extension c cc) := by
  unfold append_codings_with_nlp_derived_extension
  exact StepOk.trans (StepOk.trans (StepOk.trans (StepOk.trans (StepOk.trans (StepOk.trans
    (StepOk.trans (stepOk_cui _ _ _ _) (stepOk_field _ _ _ _)) (stepOk_field _ _ _ _))
    (stepOk_field _ _ _ _)) (stepOk_field _ _ _ _)) (stepOk_field _ _ _ _))
    (stepOk_field _ _ _ _)) (stepOk_field _ _ _ _)

theorem append_codings_count (c : AcdConcept) (cc : CC) :
    ccCount (append_codings_with_nlp_derived_extension c cc).1 =
      ccCount cc + (append_codings_with_nlp_derived_extension c cc).2 := by
  have h := append_codings_stepOk c cc
  unfold StepOk at h
  dsimp only at h
  omega

theorem append_insight_path_count (meta : Option MetaR) (i s p : String) (u : Option String) :
    metaInsightCount (append_insight_with_path_expr_to_resource_meta meta i s p u) =
      metaInsightCount meta + 1 := by
  unfold append_insight_with_path_expr_to_resource_meta
  exact add_insight_to_meta_ext_count _ _ _

/-- Per-occurrence appended-coding counts of the enrichment attribute loop,
threading the evolving codeable concept exactly as the loop does. -/
def enrichOccCounts (concepts : Option (List AcdConcept)) :
    List AcdAttr → CC → Except PyErr (List Nat)
  | [], _ => .ok []
  | attr :: rest, cc =>
    match get_source_for_attribute attr concepts with
    | .error e => .error e
    | .ok none => .error .attributeError
    | .ok (some c) =>
      let r := append_codings_with_nlp_derived_extension c cc
      match enrichOccCounts concepts rest r.1 with
      | .error e => .error e
      | .ok l => .ok (r.2 :: l)

theorem enrichAttrLoop_props (cfg : NlpConfig) (path : String) (concepts : Option (List AcdConcept)) :
    ∀ (attrs : List AcdAttr) (cc : CC) (meta : Option MetaR) (nid tot : Nat)
      (cc' : CC) (meta' : Option MetaR) (nid' tot' : Nat),
    enrichAttrLoop cfg path concepts attrs cc meta nid tot = .ok (cc', meta', nid', tot') →
    ∃ counts, enrichOccCounts concepts attrs cc = .ok counts ∧
      tot' = tot + counts.sum ∧
      nid' = nid + (counts.filter (fun n => 0 < n)).length ∧
      metaInsightCount meta' = metaInsightCount meta + (counts.filter (fun n => 0 < n)).length ∧
      ccCount cc' = ccCount cc + counts.sum := by
  intro attrs
  induction attrs with
  | nil =>
    intro cc meta nid tot cc' meta' nid' tot' h
    simp only [enrichAttrLoop] at h
    obtain ⟨h1, h2, h3, h4⟩ := Prod.mk.injEq .. ▸ Except.ok.inj h
    refine ⟨[], rfl, ?_, ?_, ?_, ?_⟩ <;> simp_all
  | cons attr rest ih =>
    intro cc meta nid tot cc' meta' nid' tot' h
    simp only [enrichAttrLoop] at h
    cases hfa : get_source_for_attribute attr concepts with
    | error e =>
      rw [hfa] at h
      exact absurd h (by simp)
    | ok oc =>
      cases oc with
      | none =>
        rw [hfa] at h
        exact absurd h (by simp)
      | some c =>
        rw [hfa] at h
        dsimp only at h
        by_cases hpos : (append_codings_with_nlp_derived_extension c cc).2 > 0
        · rw [if_pos hpos] at h
          obtain ⟨counts, hcnt, h1, h2, h3, h4⟩ := ih _ _ _ _ _ _ _ _ h
          refine ⟨(append_codings_with_nlp_derived_extension c cc).2 :: counts, ?_, ?_, ?_, ?_, ?_⟩
          · simp only [enrichOccCounts, hfa, hcnt]
          · simp only [List.sum_cons]
            omega
          · simp only [List.filter_cons, decide_eq_true_eq, if_pos hpos, List.length_cons]
            omega
          · rw [h3, append_insight_path_count]
            simp only [List.filter_cons, decide_eq_true_eq, if_pos hpos, List.length_cons]
            omega
          · rw [h4, append_codings_count]
            simp only [List.sum_cons]
            omega
        · rw [if_neg hpos] at h
          obtain ⟨counts, hcnt, h1, h2, h3, h4⟩ := ih _ _ _ _ _ _ _ _ h
          have hz : (append_codings_with_nlp_derived_extension c cc).2 = 0 := by omega
          refine ⟨(append_codings_with_nlp_derived_extension c cc).2 :: counts, ?_, ?_, ?_, ?_, ?_⟩
          · simp only [enrichOccCounts, hfa, hcnt]
          · simp only [List.sum_cons]
            omega
          · simp only [List.filter_cons, decide_eq_true_eq, if_neg hpos]
            omega
          · rw [h3]
            simp only [List.filter_cons, decide_eq_true_eq, if_neg hpos]
          · rw [h4, append_codings_count]
            simp only [List.sum_cons]
            omega

theorem sum_map_set (f : CC → Nat) : ∀ (l : List CC) (i : Nat) (x : CC), i < l.length →
    ((l.set i x).map f).sum + f (l.getD i (CC.mk none none)) = (l.map f).sum + f x := by
  intro l
  induction l with
  | nil => intro i x h; simp at h
  | cons y t ih =>
    intro i x h
    cases i with
    | zero => simp [List.set]; omega
    | succ j =>
      simp only [List.set, List.map_cons, List.sum_cons, List.getD_cons_succ]
      have := ih j x (by simpa using h)
      omega

/-- Per-occurrence appended-coding counts for one concept-reference pair:
empty when the resource kind is unsupported or the response has no truthy
attribute values. -/
def enrichPairCounts (res : EnrichResource) (ci : AcdConceptRef) : Except PyErr (List Nat) :=
  match get_acd_attr_types res.kind with
  | none => .ok []
  | some types =>
    if truthyList ci.acd_response.attribute_values then
      enrichOccCounts ci.acd_response.concepts
        (filter_attribute_values (ci.acd_response.attribute_values.getD []) types)
        (res.concepts.getD ci.conceptIndex (CC.mk none none))
    else .ok []

/-- Proof-side abbreviation: the enriched resource after one pair, with the
referenced concept replaced and the meta updated. -/
def enrichSetResult (res : EnrichResource) (idx : Nat) (cc : CC) (meta : Option MetaR) : EnrichResource :=
  { res with concepts := res.concepts.set idx cc, meta := meta }

theorem add_cci_props (res : EnrichResource) (ci : AcdConceptRef) (nid : Nat) (cfg : NlpConfig)
    (res2 : EnrichResource) (nid2 num : Nat)
    (hidx : ci.conceptIndex < res.concepts.length)
    (h : add_codeable_concept_insight res ci nid cfg = .ok (res2, nid2, num)) :
    ∃ counts, enrichPairCounts res ci = .ok counts ∧
      num = counts.sum ∧
      nid2 = nid + (counts.filter (fun n => 0 < n)).length ∧
      metaInsightCount res2.meta = metaInsightCount res.meta + (counts.filter (fun n => 0 < n)).length ∧
      resourceCodingCount res2 = resourceCodingCount res + num ∧
      res2.concepts.length = res.concepts.length := by
  unfold add_codeable_concept_insight at h
  unfold enrichPairCounts
  cases htypes : get_acd_attr_types res.kind with
  | none =>
    rw [htypes] at h
    obtain ⟨h1, h2, h3⟩ := Prod.mk.injEq .. ▸ Except.ok.inj h
    refine ⟨[], rfl, ?_, ?_, ?_, ?_, ?_⟩ <;> simp_all
  | some types =>
    rw [htypes] at h
    cases hguard : truthyList ci.acd_response.attribute_values with
    | false =>
      rw [hguard] at h
      simp only [Bool.false_eq_true, if_false] at h
      obtain ⟨h1, h2, h3⟩ := Prod.mk.injEq .. ▸ Except.ok.inj h
      refine ⟨[], by simp, ?_, ?_, ?_, ?_, ?_⟩ <;> simp_all
    | true =>
      rw [hguard] at h
      have h2 : (match enrichAttrLoop cfg ci.fhir_path ci.acd_response.concepts
            (filter_attribute_values (ci.acd_response.attribute_values.getD []) types)
            (res.concepts.getD ci.conceptIndex (CC.mk none none)) res.meta nid 0 with
          | Except.error e => (Except.error e : Except PyErr (EnrichResource × Nat × Nat))
          | Except.ok (cc, meta, nextId2, total) =>
            Except.ok (enrichSetResult res ci.conceptIndex cc meta,
              nextId2, total)) = Except.ok (res2, nid2, num) := h
      cases hloop : enrichAttrLoop cfg ci.fhir_path ci.acd_response.concepts
          (filter_attribute_values (ci.acd_response.attribute_values.getD []) types)
          (res.concepts.getD ci.conceptIndex (CC.mk none none)) res.meta nid 0 with
      | error e =>
        rw [hloop] at h2
        exact absurd h2 (by simp)
      | ok out =>
        obtain ⟨cc, meta, nid3, total⟩ := out
        rw [hloop] at h2
        obtain ⟨h1, hb, hc⟩ := Prod.mk.injEq .. ▸ Except.ok.inj h2
        obtain ⟨counts, hcnt, hs1, hs2, hs3, hs4⟩ :=
          enrichAttrLoop_props cfg ci.fhir_path ci.acd_response.concepts _ _ _ _ _ _ _ _ _ hloop
        refine ⟨counts, ?_, ?_, ?_, ?_, ?_, ?_⟩
        · exact hcnt
        · omega
        · omega
        · rw [← h1]
          simpa [enrichSetResult] using hs3
        · rw [← h1]
          show ((res.concepts.set ci.conceptIndex cc).map ccCount).sum =
            (res.concepts.map ccCount).sum + num
          have hset := sum_map_set ccCount res.concepts ci.conceptIndex cc hidx
          omega
        · rw [← h1]
          simp [enrichSetResult, List.length_set]

/-- Flattened per-occurrence appended-coding counts across all
concept-reference pairs, threading the resource state and the shared id
maker exactly as the update loop does. -/
def enrichCounts (cfg : NlpConfig) : List AcdConceptRef → EnrichResource → Nat → Except PyErr (List Nat)
  | [], _, _ => .ok []
  | ci :: rest, res, nid =>
    match enrichPairCounts res ci, add_codeable_concept_insight res ci nid cfg with
    | .error e, _ => .error e
    | .ok cnts, .ok (res2, nid2, _) =>
      match enrichCounts cfg rest res2 nid2 with
      | .error e => .error e
      | .ok l => .ok (cnts ++ l)
    | .ok _, .error e => .error e

theorem updateLoop_props (cfg : NlpConfig) : ∀ (cis : List AcdConceptRef) (res : EnrichResource)
    (nid tot : Nat) (res' : EnrichResource) (nid' tot' : Nat),
    (∀ ci ∈ cis, ci.conceptIndex < res.concepts.length) →
    updateConceptsLoop cfg cis res nid tot = .ok (res', nid', tot') →
    ∃ counts, enrichCounts cfg cis res nid = .ok counts ∧
      tot' = tot + counts.sum ∧
      nid' = nid + (counts.filter (fun n => 0 < n)).length ∧
      metaInsightCount res'.meta = metaInsightCount res.meta + (counts.filter (fun n => 0 < n)).length ∧
      resourceCodingCount res' = resourceCodingCount res + counts.sum ∧
      res'.concepts.length = res.concepts.length := by
  intro cis
  induction cis with
  | nil =>
    intro res nid tot res' nid' tot' _ h
    simp only [updateConceptsLoop] at h
    obtain ⟨h1, h2, h3⟩ := Prod.mk.injEq .. ▸ Except.ok.inj h
    refine ⟨[], rfl, ?_, ?_, ?_, ?_, ?_⟩ <;> simp_all
  | cons ci rest ih =>
    intro res nid tot res' nid' tot' hidx h
    simp only [updateConceptsLoop] at h
    cases hadd : add_codeable_concept_insight res ci nid cfg with
    | error e =>
      rw [hadd] at h
      exact absurd h (by simp)
    | ok out =>
      obtain ⟨res2, nid2, num⟩ := out
      rw [hadd] at h
      obtain ⟨counts1, hpair, hq1, hq2, hq3, hq4, hq5⟩ :=
        add_cci_props res ci nid cfg res2 nid2 num (hidx ci (List.mem_cons_self _ _)) hadd
      obtain ⟨counts2, hcnt2, hr1, hr2, hr3, hr4, hr5⟩ :=
        ih res2 nid2 (tot + num) res' nid' tot'
          (fun c hc => hq5 ▸ hidx c (List.mem_cons_of_mem _ hc)) h
      refine ⟨counts1 ++ counts2, ?_, ?_, ?_, ?_, ?_, ?_⟩
      · simp only [enrichCounts, hpair, hadd, hcnt2]
      · simp only [List.sum_append]
        omega
      · simp only [List.filter_append, List.length_append]
        omega
      · simp only [List.filter_append, List.length_append]
        omega
      · simp only [List.sum_append]
        omega
      · omega

/-- Claim C4: the enrichment update returns the total count of codings
actually appended across all concept-reference pairs (equal to the increase
in the resource's coding count and to the sum of the per-occurrence counts),
one insight is attached to the resource meta for exactly the occurrences
whose append count was positive, and a zero total makes the caller emit no
bundle while a positive total yields the single-entry PUT bundle. -/
theorem claim_C4 (res : EnrichResource) (cis : List AcdConceptRef) (cfg : NlpConfig)
    (res' : EnrichResource) (total : Nat)
    (hidx : ∀ ci ∈ cis, ci.conceptIndex < res.concepts.length)
    (h : update_codeable_concepts_and_meta_with_insights res cis cfg = .ok (res', total)) :
    ∃ counts, enrichCounts cfg cis res cfg.insight_id_start = .ok counts ∧
      total = counts.sum ∧
      resourceCodingCount res' = resourceCodingCount res + total ∧
      metaInsightCount res'.meta = metaInsightCount res.meta + (counts.filter (fun n => 0 < n)).length ∧
      (total = 0 → enrich_resource_codeable_concepts cis res cfg = .ok none) ∧
      (0 < total → enrich_resource_codeable_concepts cis res cfg =
        .ok (some (create_transaction_bundle
          [BundleEntryDfn.mk res' "PUT" (res'.resource_type ++ "/" ++ pyStr res'.resource_id)]))) := by
  unfold update_codeable_concepts_and_meta_with_insights at h
  cases hloop : updateConceptsLoop cfg cis res cfg.insight_id_start 0 with
  | error e =>
    rw [hloop] at h
    exact absurd h (by simp)
  | ok out =>
    obtain ⟨res0, nid0, tot0⟩ := out
    rw [hloop] at h
    obtain ⟨h1, h2⟩ := Prod.mk.injEq .. ▸ Except.ok.inj h
    obtain ⟨counts, hcnt, hp1, hp2, hp3, hp4, hp5⟩ :=
      updateLoop_props cfg cis res cfg.insight_id_start 0 res0 nid0 tot0 hidx hloop
    subst h1
    subst h2
    refine ⟨counts, hcnt, by omega, by omega, hp3, ?_, ?_⟩
    · intro hz
      unfold enrich_resource_codeable_concepts
      unfold update_codeable_concepts_and_meta_with_insights
      rw [hloop]
      show (if tot0 > 0 then
          Except.ok (some (create_transaction_bundle
            [BundleEntryDfn.mk res0 "PUT" (res0.resource_type ++ "/" ++ pyStr res0.resource_id)]))
        else Except.ok none) = Except.ok none
      rw [if_neg (by omega)]
    · intro hpos
      unfold enrich_resource_codeable_concepts
      unfold update_codeable_concepts_and_meta_with_insights
      rw [hloop]
      show (if tot0 > 0 then
          Except.ok (some (create_transaction_bundle
            [BundleEntryDfn.mk res0 "PUT" (res0.resource_type ++ "/" ++ pyStr res0.resource_id)]))
        else Except.ok none) = _
      rw [if_pos hpos]

/-- Concrete enrichable resource: a Condition with one codeable concept that
has no codings yet. -/
def c4Res : EnrichResource :=
  ⟨ResourceKind.condition, "Condition", some "77", [CC.mk (some "diabetes") (some [])], none⟩

/-- Concrete concept reference over that concept, with an ACD response
holding one relevant attribute correlating to a concept with a CUI. -/
def c4Ci : AcdConceptRef :=
  ⟨0, "Condition.code", ⟨some [wCondAttr 1], some [wConcept 1 "C1"], none⟩⟩

/-- Witness for claim C4: one relevant attribute appends one derived coding,
so the returned total is 1 (the coding-count increase), one insight lands in
the meta, and the PUT bundle is emitted. -/
theorem claim_C4_witness :
    ∃ res' total counts,
      update_codeable_concepts_and_meta_with_insights c4Res [c4Ci] ACD_NLP_CONFIG = .ok (res', total) ∧
      enrichCounts ACD_NLP_CONFIG [c4Ci] c4Res 1 = .ok counts ∧
      total = counts.sum ∧
      resourceCodingCount res' = resourceCodingCount c4Res + total ∧
      metaInsightCount res'.meta =
        metaInsightCount c4Res.meta + (counts.filter (fun n => 0 < n)).length ∧
      (0 < total → enrich_resource_codeable_concepts [c4Ci] c4Res ACD_NLP_CONFIG =
        .ok (some (create_transaction_bundle
          [BundleEntryDfn.mk res' "PUT" (res'.resource_type ++ "/" ++ pyStr res'.resource_id)]))) := by
  have h : update_codeable_concepts_and_meta_with_insights c4Res [c4Ci] ACD_NLP_CONFIG =
      .ok (((update_codeable_concepts_and_meta_with_insights c4Res [c4Ci]
          ACD_NLP_CONFIG).toOption.getD (c4Res, 0)).1,
        ((update_codeable_concepts_and_meta_with_insights c4Res [c4Ci]
          ACD_NLP_CONFIG).toOption.getD (c4Res, 0)).2) := rfl
  obtain ⟨counts, h1, h2, h3, h4, _, h6⟩ := claim_C4 c4Res [c4Ci] ACD_NLP_CONFIG _ _ (by decide) h
  exact ⟨_, _, counts, h, h1, h2, h3, h4, h6⟩

end HealthPatterns
